import Mathlib

/-!
Verification of the beatport-continuity pipeline (src/bpc).

Shallow embedding notes:
* Python `float` arithmetic is modelled exactly: report-side values
  (classifier thresholds, aggregation) as rationals `ℚ`, compute-side
  values (which use `math.log1p` / `math.sqrt`) as reals `ℝ`.
* Python `date` objects are modelled by their proleptic-Gregorian ordinal
  (`date.toordinal`), an integer; ordinal 1 (0001-01-01) is a Monday, so
  `d.weekday() = (ordinal - 1) % 7`.
* SQLite state is modelled as explicit record/list state with an
  operational connection model (committed vs pending, BEGIN / COMMIT /
  ROLLBACK).
-/

namespace Bpc

/-! ### time_utils.py -/

/-- `date.weekday()` for a proleptic-Gregorian ordinal (Monday = 0). -/
def weekday (d : ℤ) : ℤ := (d - 1) % 7

/-- `week_bucket` from src/bpc/time_utils.py:
`d - timedelta(days=d.weekday())`, the Monday of the week containing `d`. -/
def weekBucket (d : ℤ) : ℤ := d - weekday d

/-! ### compute.py: `_compute_segments` -/

/-- Loop body of `_compute_segments` (src/bpc/compute.py lines 76-88):
iterates over adjacent pairs, carrying `(segments, current, max_streak,
last_streak)`; `prev` is the previous element of the zip. -/
def segLoop : ℤ → List ℤ → ℕ → ℕ → ℕ → ℕ → ℕ × ℕ × ℕ
  | _, [], segments, _current, maxS, lastS => (segments, maxS, lastS)
  | prev, curr :: rest, segments, current, maxS, _lastS =>
    let current2 := if curr = prev + 1 then current + 1 else 1
    let segments2 := if curr = prev + 1 then segments else segments + 1
    let maxS2 := max maxS current2
    segLoop curr rest segments2 current2 maxS2 current2

/-- `_compute_segments(idxs)`: returns
`(segments_count, max_streak_weeks, last_streak_weeks)`. -/
def computeSegments : List ℤ → ℕ × ℕ × ℕ
  | [] => (0, 0, 0)
  | x :: rest => segLoop x rest 1 1 1 1

/-- Spec-side definition ("maximal runs of consecutive indices"):
decompose a list into maximal chunks in which each element is the
predecessor's successor. -/
def chunkRuns : List ℤ → List (List ℤ)
  | [] => []
  | [x] => [[x]]
  | x :: y :: xs =>
    match chunkRuns (y :: xs) with
    | r :: rs => if y = x + 1 then (x :: r) :: rs else [x] :: r :: rs
    | [] => [[x]]

theorem chunkRuns_cons_head (l : List ℤ) (x : ℤ) :
    ∃ t rs, chunkRuns (x :: l) = (x :: t) :: rs := by
  cases l with
  | nil => exact ⟨[], [], rfl⟩
  | cons y ys =>
    obtain ⟨t, rs, h⟩ := chunkRuns_cons_head ys y
    by_cases hc : y = x + 1
    · subst hc
      exact ⟨(x + 1) :: t, rs, by simp only [chunkRuns, h]; rw [if_pos trivial]⟩
    · exact ⟨[], (y :: t) :: rs, by simp only [chunkRuns, h]; rw [if_neg hc]⟩

/-- The chunks of `chunkRuns` concatenate back to the original list. -/
theorem chunkRuns_flatten (l : List ℤ) : (chunkRuns l).flatten = l := by
  match l with
  | [] => rfl
  | [x] => rfl
  | x :: y :: xs =>
    have ih := chunkRuns_flatten (y :: xs)
    obtain ⟨t, rs, h⟩ := chunkRuns_cons_head xs y
    rw [h] at ih
    by_cases hc : y = x + 1
    · subst hc
      simp only [chunkRuns, h]
      rw [if_pos trivial]
      simpa using ih
    · simp only [chunkRuns, h]
      rw [if_neg hc]
      simpa using ih

/-- Every chunk produced by `chunkRuns` is a run of consecutive integers. -/
theorem chunkRuns_chain (l : List ℤ) :
    ∀ r ∈ chunkRuns l, r.Chain' (fun a b => b = a + 1) := by
  match l with
  | [] => intro r hr; simp [chunkRuns] at hr
  | [x] => intro r hr; simp [chunkRuns] at hr; simp [hr]
  | x :: y :: xs =>
    have ih := chunkRuns_chain (y :: xs)
    obtain ⟨t, rs, h⟩ := chunkRuns_cons_head xs y
    intro r hr
    by_cases hc : y = x + 1
    · subst hc
      simp only [chunkRuns, h] at hr
      rw [if_pos trivial] at hr
      rcases List.mem_cons.mp hr with h1 | h2
      · subst h1
        have hyt := ih ((x + 1) :: t) (by rw [h]; exact List.mem_cons_self _ _)
        exact List.Chain'.cons rfl hyt
      · exact ih r (by rw [h]; exact List.mem_cons_of_mem _ h2)
    · simp only [chunkRuns, h] at hr
      rw [if_neg hc] at hr
      rcases List.mem_cons.mp hr with h1 | h2
      · subst h1; simp
      · exact ih r (by rw [h]; exact h2)

/-- `foldr max` over `ℕ` with a seed equals `max` of the seed and the
seedless fold. -/
theorem foldr_max_eq (a : ℕ) (l : List ℕ) :
    l.foldr max a = max a (l.foldr max 0) := by
  induction l with
  | nil => simp
  | cons x xs ih => simp [List.foldr_cons, ih]; omega

/-- Main loop invariant: `segLoop` computes the run statistics of
`prev :: l`, where the partial run ending at `prev` has length `c` and
`c ≤ m` (the running maximum already accounts for the partial run). -/
theorem segLoop_spec (l : List ℤ) :
    ∀ (prev : ℤ) (t : List ℤ) (rs : List (List ℤ)) (s c m : ℕ),
      chunkRuns (prev :: l) = (prev :: t) :: rs →
      c ≤ m →
      segLoop prev l s c m c =
        (s + rs.length,
         max m (List.foldr max (c + t.length) (rs.map List.length)),
         (rs.map List.length).getLastD (c + t.length)) := by
  induction l with
  | nil =>
    intro prev t rs s c m hchunk hcm
    rw [show chunkRuns [prev] = [[prev]] from rfl] at hchunk
    injection hchunk with ha hb
    injection ha with hx ht
    subst ht; subst hb
    simp [segLoop, Nat.max_eq_left hcm]
  | cons y ys ih =>
    intro prev t rs s c m hchunk hcm
    obtain ⟨t2, rs2, h2⟩ := chunkRuns_cons_head ys y
    by_cases hc : y = prev + 1
    · subst hc
      rw [show chunkRuns (prev :: (prev + 1) :: ys) =
            (prev :: (prev + 1) :: t2) :: rs2 by
          simp only [chunkRuns, h2]; rw [if_pos trivial]] at hchunk
      injection hchunk with ha hb
      injection ha with hx ht
      subst ht; subst hb
      rw [show segLoop prev ((prev + 1) :: ys) s c m c =
            segLoop (prev + 1) ys s (c + 1) (max m (c + 1)) (c + 1) by
          simp [segLoop]]
      rw [ih (prev + 1) t2 rs2 s (c + 1) (max m (c + 1)) h2 (le_max_right _ _)]
      have hlen : c + ((prev + 1) :: t2).length = (c + 1) + t2.length := by
        simp; omega
      rw [hlen]
      refine Prod.ext rfl (Prod.ext ?_ rfl)
      simp only
      rw [foldr_max_eq (c + 1 + t2.length)]
      apply le_antisymm <;> simp only [max_le_iff, le_max_iff] <;> omega
    · rw [show chunkRuns (prev :: y :: ys) = [prev] :: (y :: t2) :: rs2 by
          simp only [chunkRuns, h2]; rw [if_neg hc]] at hchunk
      injection hchunk with ha hb
      injection ha with hx ht
      subst ht; subst hb
      rw [show segLoop prev (y :: ys) s c m c =
            segLoop y ys (s + 1) 1 (max m 1) 1 by
          simp [segLoop, hc]]
      rw [ih y t2 rs2 (s + 1) 1 (max m 1) h2 (le_max_right _ _)]
      refine Prod.ext (by simp; omega) (Prod.ext ?_ ?_)
      · simp only [List.map_cons, List.foldr_cons, List.length_nil, Nat.add_zero,
          List.length_cons]
        rw [foldr_max_eq (1 + t2.length), foldr_max_eq c]
        apply le_antisymm <;> simp only [max_le_iff, le_max_iff] <;> omega
      · simp only [List.map_cons, List.getLastD_cons, List.length_cons, List.length_nil,
          Nat.add_zero]
        rw [Nat.add_comm 1 t2.length]

/-- `_compute_segments` on a non-empty list returns the number of maximal
consecutive runs, the longest run length, and the final run length. -/
theorem computeSegments_runs (x : ℤ) (xs : List ℤ) :
    computeSegments (x :: xs) =
      ((chunkRuns (x :: xs)).length,
       ((chunkRuns (x :: xs)).map List.length).foldr max 0,
       ((chunkRuns (x :: xs)).map List.length).getLastD 0) := by
  obtain ⟨t, rs, h⟩ := chunkRuns_cons_head xs x
  rw [show computeSegments (x :: xs) = segLoop x xs 1 1 1 1 from rfl]
  rw [segLoop_spec xs x t rs 1 1 1 h le_rfl, h]
  refine Prod.ext (by simp; omega) (Prod.ext ?_ ?_)
  · simp only [List.map_cons, List.foldr_cons, List.length_cons]
    rw [foldr_max_eq (1 + t.length)]
    apply le_antisymm <;> simp only [max_le_iff, le_max_iff] <;> omega
  · simp only [List.map_cons, List.getLastD_cons, List.length_cons]
    rw [Nat.add_comm 1 t.length]

/-- The running maximum produced by `segLoop` never exceeds the length of
the remaining input plus the current partial-run length. -/
theorem segLoop_max_le (l : List ℤ) :
    ∀ (prev : ℤ) (s c m lastS : ℕ), 1 ≤ c →
      (segLoop prev l s c m lastS).2.1 ≤ max m (c + l.length) := by
  induction l with
  | nil =>
    intro prev s c m lastS hc
    simp [segLoop]
  | cons y ys ih =>
    intro prev s c m lastS hc
    by_cases h : y = prev + 1
    · rw [show segLoop prev (y :: ys) s c m lastS =
            segLoop y ys s (c + 1) (max m (c + 1)) (c + 1) by simp [segLoop, h]]
      refine le_trans (ih y s (c + 1) (max m (c + 1)) (c + 1) (by omega)) ?_
      simp only [max_le_iff, le_max_iff, List.length_cons]
      omega
    · rw [show segLoop prev (y :: ys) s c m lastS =
            segLoop y ys (s + 1) 1 (max m 1) 1 by simp [segLoop, h]]
      refine le_trans (ih y (s + 1) 1 (max m 1) 1 le_rfl) ?_
      simp only [max_le_iff, le_max_iff, List.length_cons]
      omega

/-- The `max_streak_weeks` component of `_compute_segments` is at most the
number of observations. -/
theorem computeSegments_max_le_length (l : List ℤ) :
    (computeSegments l).2.1 ≤ l.length := by
  cases l with
  | nil => simp [computeSegments]
  | cons x xs =>
    refine le_trans (segLoop_max_le xs x 1 1 1 1 le_rfl) ?_
    simp only [max_le_iff, List.length_cons]
    omega

/-- A strictly increasing integer list starting at `x` ends at least
`x + (length - 1)`. -/
theorem chain_lt_le_getLast (x : ℤ) (xs : List ℤ)
    (h : (x :: xs).Chain' (· < ·)) :
    x + (xs.length : ℤ) ≤ (x :: xs).getLast (List.cons_ne_nil x xs) := by
  induction xs generalizing x with
  | nil => simp
  | cons y ys ih =>
    have hlt : x < y := (List.chain'_cons.mp h).1
    have h2 := ih y (List.chain'_cons.mp h).2
    rw [List.getLast_cons (List.cons_ne_nil y ys)]
    refine le_trans ?_ h2
    simp only [List.length_cons]
    push_cast
    omega

/-! ### compute.py: metric rows -/

/-- One weekly observation of a track (`TrackWeek` dataclass). -/
structure TrackWeek where
  idx : ℤ
  week : String
  rank : ℤ
deriving DecidableEq

/-- `_pop_stddev(values)` (population standard deviation; 0 for `n <= 1`). -/
noncomputable def popStddev (values : List ℝ) : ℝ :=
  if values.length ≤ 1 then 0
  else
    let n : ℝ := values.length
    let mean := values.sum / n
    Real.sqrt ((values.map (fun v => (v - mean) ^ 2)).sum / n)

/-- `_clamp01(x)`. -/
noncomputable def clamp01 (x : ℝ) : ℝ := if x < 0 then 0 else if x > 1 then 1 else x

/-- `rank_quality_norm = _clamp01(1 - ((avg_rank - 1) / 99))`. -/
noncomputable def rankQualityNorm (avg_rank : ℝ) : ℝ := clamp01 (1 - (avg_rank - 1) / 99)

/-- `longevity_norm = log1p(weeks_on_chart) / log1p(max_weeks_observed)`
(0 when no weeks observed). -/
noncomputable def longevityNorm (weeks_on_chart max_weeks_observed : ℕ) : ℝ :=
  if 0 < max_weeks_observed then
    Real.log (1 + (weeks_on_chart : ℝ)) / Real.log (1 + (max_weeks_observed : ℝ))
  else 0

/-- `streak_norm = max_streak_weeks / max_weeks_observed` (0 when none). -/
noncomputable def streakNorm (max_streak_weeks max_weeks_observed : ℕ) : ℝ :=
  if 0 < max_weeks_observed then (max_streak_weeks : ℝ) / (max_weeks_observed : ℝ)
  else 0

/-- `churn_norm = 1 / (1 + reentry_count)`. -/
noncomputable def churnNorm (reentry_count : ℕ) : ℝ := 1 / (1 + (reentry_count : ℝ))

/-- Result of `_compute_motion_window` (a 5-tuple in the source). -/
structure Motion where
  last_rank : Option ℤ
  prev_rank : Option ℤ
  wow_delta : Option ℤ
  momentum_4w : Option ℝ
  volatility_4w : Option ℝ

/-- `_compute_motion_window(entries, as_of_week)`: motion metrics over the
trailing window of up to 4 observations; all `None` unless the final
observation is at the as-of week. -/
noncomputable def computeMotionWindow (entries : List TrackWeek) (as_of_week : String) :
    Motion :=
  match entries.getLast? with
  | none => ⟨none, none, none, none, none⟩
  | some lastE =>
    if lastE.week ≠ as_of_week then ⟨none, none, none, none, none⟩
    else
      let last_rank := lastE.rank
      let prev_rank : Option ℤ := entries.dropLast.getLast?.map (·.rank)
      let wow_delta : Option ℤ := prev_rank.map (fun p => p - last_rank)
      let window := entries.drop (entries.length - 4)
      let ranks := window.map (·.rank)
      let momentum : Option ℝ :=
        if 2 ≤ ranks.length then
          some (((ranks.headD 0 - ranks.getLastD 0 : ℤ) : ℝ) / ((ranks.length : ℝ) - 1))
        else none
      let volatility : Option ℝ :=
        if 3 ≤ ranks.length then
          let deltas := (window.zip window.tail).map
            (fun p => ((p.1.rank - p.2.rank : ℤ) : ℝ))
          some (if 2 ≤ deltas.length then popStddev deltas else 0)
        else none
      ⟨some last_rank, prev_rank, wow_delta, momentum, volatility⟩

/-- The dictionary produced by `_build_metric_row` (`chart_id`, filled in
by the caller, is carried separately in the batch model). -/
structure MetricRow where
  track_id : String
  as_of_week : String
  weeks_on_chart : ℕ
  first_seen_week : String
  last_seen_week : String
  age_weeks : ℤ
  presence_ratio : ℝ
  current_streak_weeks : ℕ
  max_streak_weeks : ℕ
  reentry_count : ℕ
  segments_count : ℕ
  best_rank : ℤ
  best_rank_week : String
  avg_rank : ℝ
  rank_stddev : ℝ
  top10_weeks : ℕ
  top25_weeks : ℕ
  last_rank : Option ℤ
  prev_rank : Option ℤ
  wow_delta : Option ℤ
  momentum_4w : Option ℝ
  volatility_4w : Option ℝ
  durability_score : ℝ

instance decIdxLe : DecidableRel (fun (a b : TrackWeek) => a.idx ≤ b.idx) :=
  fun a b => Int.decLe a.idx b.idx

/-- `_build_metric_row`. Python's `sorted(entries, key=lambda e: e.idx)` is
modelled by insertion sort on `idx` (identical on the distinct-index inputs
the pipeline produces); `max(segments_count - 1, 0)` is truncated `ℕ`
subtraction. -/
noncomputable def buildMetricRow (track_id : String) (entries : List TrackWeek)
    (as_of_week : String) (as_of_idx : ℤ) (max_weeks_observed : ℕ) : MetricRow :=
  let entries_sorted := List.insertionSort (fun a b => a.idx ≤ b.idx) entries
  let idxs := entries_sorted.map (·.idx)
  let weeks_on_chart := entries_sorted.length
  let dummy : TrackWeek := ⟨0, "", 0⟩
  let first_seen_week := (entries_sorted.headD dummy).week
  let last_seen_week := (entries_sorted.getLastD dummy).week
  let first_idx := idxs.headD 0
  let age_weeks := (as_of_idx - first_idx) + 1
  let presence_ratio : ℝ :=
    if 0 < age_weeks then (weeks_on_chart : ℝ) / ((age_weeks : ℤ) : ℝ) else 0
  let seg := computeSegments idxs
  let segments_count := seg.1
  let max_streak_weeks := seg.2.1
  let last_streak_weeks := seg.2.2
  let reentry_count := segments_count - 1
  let current_streak_weeks := if last_seen_week = as_of_week then last_streak_weeks else 0
  let ranks := entries_sorted.map (·.rank)
  let best_rank := match ranks with | [] => 0 | r :: rest => rest.foldl min r
  let best_rank_week := ((entries_sorted.find? (fun e => e.rank = best_rank)).map (·.week)).getD ""
  let avg_rank : ℝ := ((ranks.sum : ℤ) : ℝ) / (weeks_on_chart : ℝ)
  let rank_stddev := popStddev (ranks.map (fun r => (r : ℝ)))
  let top10_weeks := ranks.countP (fun r => decide (r ≤ 10))
  let top25_weeks := ranks.countP (fun r => decide (r ≤ 25))
  let motion := computeMotionWindow entries_sorted as_of_week
  let durability_score :=
    0.35 * rankQualityNorm avg_rank
      + 0.25 * longevityNorm weeks_on_chart max_weeks_observed
      + 0.20 * streakNorm max_streak_weeks max_weeks_observed
      + 0.10 * presence_ratio
      + 0.10 * churnNorm reentry_count
  { track_id := track_id, as_of_week := as_of_week, weeks_on_chart := weeks_on_chart,
    first_seen_week := first_seen_week, last_seen_week := last_seen_week,
    age_weeks := age_weeks, presence_ratio := presence_ratio,
    current_streak_weeks := current_streak_weeks, max_streak_weeks := max_streak_weeks,
    reentry_count := reentry_count, segments_count := segments_count,
    best_rank := best_rank, best_rank_week := best_rank_week, avg_rank := avg_rank,
    rank_stddev := rank_stddev, top10_weeks := top10_weeks, top25_weeks := top25_weeks,
    last_rank := motion.last_rank, prev_rank := motion.prev_rank,
    wow_delta := motion.wow_delta, momentum_4w := motion.momentum_4w,
    volatility_4w := motion.volatility_4w, durability_score := durability_score }

/-- For observation lists ascending by index, the final observation's
index is at least the first index plus (length - 1). -/
theorem chain_lt_le_getLast_tw (e0 : TrackWeek) (rest : List TrackWeek)
    (h : ((e0 :: rest).map (fun e => e.idx)).Chain' (· < ·)) :
    e0.idx + (rest.length : ℤ) ≤ ((e0 :: rest).getLast (List.cons_ne_nil e0 rest)).idx := by
  induction rest generalizing e0 with
  | nil => simp
  | cons e1 rest2 ih =>
    have hmap : ((e0 :: e1 :: rest2).map (fun e => e.idx)) =
        e0.idx :: e1.idx :: rest2.map (fun e => e.idx) := by simp
    rw [hmap] at h
    have hlt : e0.idx < e1.idx := (List.chain'_cons.mp h).1
    have htail : ((e1 :: rest2).map (fun e => e.idx)).Chain' (· < ·) := by
      simpa using (List.chain'_cons.mp h).2
    have h2 := ih e1 htail
    rw [List.getLast_cons (List.cons_ne_nil e1 rest2)]
    simp only [List.length_cons]
    push_cast
    omega

/-- On an input already ascending by `idx`, the sort inside
`_build_metric_row` is the identity. -/
theorem insertionSort_idx_eq (entries : List TrackWeek)
    (hasc : (entries.map (fun e => e.idx)).Chain' (· < ·)) :
    List.insertionSort (fun a b => a.idx ≤ b.idx) entries = entries := by
  apply List.Sorted.insertionSort_eq
  have h1 : entries.Chain' (fun a b => a.idx < b.idx) :=
    (List.chain'_map (fun e : TrackWeek => e.idx)).mp hasc
  haveI : IsTrans TrackWeek (fun a b => a.idx < b.idx) :=
    ⟨fun a b c hab hbc => lt_trans hab hbc⟩
  have h2 : entries.Pairwise (fun a b => a.idx < b.idx) :=
    List.chain'_iff_pairwise.mp h1
  exact List.Pairwise.imp (fun h => le_of_lt h) h2

theorem buildMetricRow_weeks (track_id : String) (entries : List TrackWeek)
    (as_of_week : String) (as_of_idx : ℤ) (N : ℕ)
    (hsor : List.insertionSort (fun a b => a.idx ≤ b.idx) entries = entries) :
    (buildMetricRow track_id entries as_of_week as_of_idx N).weeks_on_chart =
      entries.length := by
  simp only [buildMetricRow, hsor]

theorem buildMetricRow_age (track_id : String) (entries : List TrackWeek)
    (as_of_week : String) (as_of_idx : ℤ) (N : ℕ)
    (hsor : List.insertionSort (fun a b => a.idx ≤ b.idx) entries = entries) :
    (buildMetricRow track_id entries as_of_week as_of_idx N).age_weeks =
      (as_of_idx - (entries.map (fun e => e.idx)).headD 0) + 1 := by
  simp only [buildMetricRow, hsor]

theorem buildMetricRow_presence (track_id : String) (entries : List TrackWeek)
    (as_of_week : String) (as_of_idx : ℤ) (N : ℕ)
    (hsor : List.insertionSort (fun a b => a.idx ≤ b.idx) entries = entries) :
    (buildMetricRow track_id entries as_of_week as_of_idx N).presence_ratio =
      (if 0 < (as_of_idx - (entries.map (fun e => e.idx)).headD 0) + 1 then
        (entries.length : ℝ) /
          (((as_of_idx - (entries.map (fun e => e.idx)).headD 0) + 1 : ℤ) : ℝ)
      else 0) := by
  simp only [buildMetricRow, hsor]

theorem buildMetricRow_maxStreak (track_id : String) (entries : List TrackWeek)
    (as_of_week : String) (as_of_idx : ℤ) (N : ℕ)
    (hsor : List.insertionSort (fun a b => a.idx ≤ b.idx) entries = entries) :
    (buildMetricRow track_id entries as_of_week as_of_idx N).max_streak_weeks =
      (computeSegments (entries.map (fun e => e.idx))).2.1 := by
  simp only [buildMetricRow, hsor]

theorem buildMetricRow_segments (track_id : String) (entries : List TrackWeek)
    (as_of_week : String) (as_of_idx : ℤ) (N : ℕ)
    (hsor : List.insertionSort (fun a b => a.idx ≤ b.idx) entries = entries) :
    (buildMetricRow track_id entries as_of_week as_of_idx N).segments_count =
      (computeSegments (entries.map (fun e => e.idx))).1 := by
  simp only [buildMetricRow, hsor]

theorem buildMetricRow_reentry (track_id : String) (entries : List TrackWeek)
    (as_of_week : String) (as_of_idx : ℤ) (N : ℕ)
    (hsor : List.insertionSort (fun a b => a.idx ≤ b.idx) entries = entries) :
    (buildMetricRow track_id entries as_of_week as_of_idx N).reentry_count =
      (computeSegments (entries.map (fun e => e.idx))).1 - 1 := by
  simp only [buildMetricRow, hsor]

theorem buildMetricRow_lastSeen (track_id : String) (entries : List TrackWeek)
    (as_of_week : String) (as_of_idx : ℤ) (N : ℕ)
    (hsor : List.insertionSort (fun a b => a.idx ≤ b.idx) entries = entries) :
    (buildMetricRow track_id entries as_of_week as_of_idx N).last_seen_week =
      (entries.getLastD ⟨0, "", 0⟩).week := by
  simp only [buildMetricRow, hsor]

theorem buildMetricRow_currentStreak (track_id : String) (entries : List TrackWeek)
    (as_of_week : String) (as_of_idx : ℤ) (N : ℕ)
    (hsor : List.insertionSort (fun a b => a.idx ≤ b.idx) entries = entries) :
    (buildMetricRow track_id entries as_of_week as_of_idx N).current_streak_weeks =
      (if (entries.getLastD ⟨0, "", 0⟩).week = as_of_week then
        (computeSegments (entries.map (fun e => e.idx))).2.2 else 0) := by
  simp only [buildMetricRow, hsor]

theorem buildMetricRow_durability (track_id : String) (entries : List TrackWeek)
    (as_of_week : String) (as_of_idx : ℤ) (N : ℕ) :
    (buildMetricRow track_id entries as_of_week as_of_idx N).durability_score =
      0.35 * rankQualityNorm (buildMetricRow track_id entries as_of_week as_of_idx N).avg_rank
      + 0.25 * longevityNorm (buildMetricRow track_id entries as_of_week as_of_idx N).weeks_on_chart N
      + 0.20 * streakNorm (buildMetricRow track_id entries as_of_week as_of_idx N).max_streak_weeks N
      + 0.10 * (buildMetricRow track_id entries as_of_week as_of_idx N).presence_ratio
      + 0.10 * churnNorm (buildMetricRow track_id entries as_of_week as_of_idx N).reentry_count := by
  simp only [buildMetricRow]

/-- `clamp01` lands in `[0, 1]`. -/
theorem clamp01_mem (x : ℝ) : 0 ≤ clamp01 x ∧ clamp01 x ≤ 1 := by
  unfold clamp01
  split_ifs <;> constructor <;> linarith

theorem rankQualityNorm_mem (x : ℝ) :
    0 ≤ rankQualityNorm x ∧ rankQualityNorm x ≤ 1 := by
  unfold rankQualityNorm
  exact clamp01_mem _

theorem longevityNorm_mem (w N : ℕ) (hw : 1 ≤ w) (hN : w ≤ N) :
    0 ≤ longevityNorm w N ∧ longevityNorm w N ≤ 1 := by
  have hN0 : 0 < N := lt_of_lt_of_le hw hN
  have hN1 : (1 : ℝ) ≤ (N : ℝ) := by exact_mod_cast hN0
  have hlogN : 0 < Real.log (1 + (N : ℝ)) := Real.log_pos (by linarith)
  unfold longevityNorm
  rw [if_pos hN0]
  constructor
  · apply div_nonneg _ (le_of_lt hlogN)
    apply Real.log_nonneg
    have : (0 : ℝ) ≤ (w : ℝ) := by positivity
    linarith
  · rw [div_le_one hlogN]
    apply Real.log_le_log (by positivity)
    have : (w : ℝ) ≤ (N : ℝ) := by exact_mod_cast hN
    linarith

theorem streakNorm_mem (s N : ℕ) (hs : s ≤ N) (hN : 0 < N) :
    0 ≤ streakNorm s N ∧ streakNorm s N ≤ 1 := by
  unfold streakNorm
  rw [if_pos hN]
  constructor
  · positivity
  · rw [div_le_one (by exact_mod_cast hN)]
    exact_mod_cast hs

theorem churnNorm_mem (re : ℕ) : 0 ≤ churnNorm re ∧ churnNorm re ≤ 1 := by
  unfold churnNorm
  have h1 : (0 : ℝ) < 1 + (re : ℝ) := by positivity
  constructor
  · positivity
  · rw [div_le_one h1]
    have : (0 : ℝ) ≤ (re : ℝ) := by positivity
    linarith

/-- Claim C1: for a non-empty item history with strictly ascending
observation indices all at most the as-of index, positive ranks, and a
chart-wide distinct-week count `N` at least the number of observations,
`_build_metric_row` produces `durability_score` equal to the weighted sum
`0.35*rank_quality + 0.25*longevity + 0.20*streak + 0.10*presence +
0.10*churn`, every one of the five components lies in `[0, 1]`, and the
resulting `durability_score` lies in `[0, 1]`. -/
theorem c1_durability_weighted_sum_and_bounds
    (track_id : String) (entries : List TrackWeek)
    (as_of_week : String) (as_of_idx : ℤ) (N : ℕ)
    (hne : entries ≠ [])
    (hasc : (entries.map (fun e => e.idx)).Chain' (· < ·))
    (hidx : ∀ e ∈ entries, e.idx ≤ as_of_idx)
    (hrank : ∀ e ∈ entries, 1 ≤ e.rank)
    (hN : entries.length ≤ N) :
    (buildMetricRow track_id entries as_of_week as_of_idx N).durability_score =
        0.35 * rankQualityNorm (buildMetricRow track_id entries as_of_week as_of_idx N).avg_rank
      + 0.25 * longevityNorm (buildMetricRow track_id entries as_of_week as_of_idx N).weeks_on_chart N
      + 0.20 * streakNorm (buildMetricRow track_id entries as_of_week as_of_idx N).max_streak_weeks N
      + 0.10 * (buildMetricRow track_id entries as_of_week as_of_idx N).presence_ratio
      + 0.10 * churnNorm (buildMetricRow track_id entries as_of_week as_of_idx N).reentry_count
    ∧ (0 ≤ rankQualityNorm (buildMetricRow track_id entries as_of_week as_of_idx N).avg_rank
        ∧ rankQualityNorm (buildMetricRow track_id entries as_of_week as_of_idx N).avg_rank ≤ 1)
    ∧ (0 ≤ longevityNorm (buildMetricRow track_id entries as_of_week as_of_idx N).weeks_on_chart N
        ∧ longevityNorm (buildMetricRow track_id entries as_of_week as_of_idx N).weeks_on_chart N ≤ 1)
    ∧ (0 ≤ streakNorm (buildMetricRow track_id entries as_of_week as_of_idx N).max_streak_weeks N
        ∧ streakNorm (buildMetricRow track_id entries as_of_week as_of_idx N).max_streak_weeks N ≤ 1)
    ∧ (0 ≤ (buildMetricRow track_id entries as_of_week as_of_idx N).presence_ratio
        ∧ (buildMetricRow track_id entries as_of_week as_of_idx N).presence_ratio ≤ 1)
    ∧ (0 ≤ churnNorm (buildMetricRow track_id entries as_of_week as_of_idx N).reentry_count
        ∧ churnNorm (buildMetricRow track_id entries as_of_week as_of_idx N).reentry_count ≤ 1)
    ∧ (0 ≤ (buildMetricRow track_id entries as_of_week as_of_idx N).durability_score
        ∧ (buildMetricRow track_id entries as_of_week as_of_idx N).durability_score ≤ 1) := by
  have hsor := insertionSort_idx_eq entries hasc
  obtain ⟨e0, rest, rfl⟩ : ∃ e0 rest, entries = e0 :: rest := by
    cases entries with
    | nil => exact absurd rfl hne
    | cons a l => exact ⟨a, l, rfl⟩
  have hw := buildMetricRow_weeks track_id (e0 :: rest) as_of_week as_of_idx N hsor
  have hms := buildMetricRow_maxStreak track_id (e0 :: rest) as_of_week as_of_idx N hsor
  have hp := buildMetricRow_presence track_id (e0 :: rest) as_of_week as_of_idx N hsor
  have hN0 : 0 < N := lt_of_lt_of_le (by simp) hN
  have hhead : ((e0 :: rest).map (fun e => e.idx)).headD 0 = e0.idx := by simp
  have hlast_le : ((e0 :: rest).getLast (List.cons_ne_nil e0 rest)).idx ≤ as_of_idx :=
    hidx _ (List.getLast_mem _)
  have hchain := chain_lt_le_getLast_tw e0 rest hasc
  have hlen_age : ((e0 :: rest).length : ℤ) ≤ (as_of_idx - e0.idx) + 1 := by
    simp only [List.length_cons]
    push_cast
    omega
  have hage_pos : 0 < (as_of_idx - e0.idx) + 1 := by
    have := hidx e0 (List.mem_cons_self _ _)
    omega
  rw [hhead] at hp
  rw [if_pos hage_pos] at hp
  have hpres_mem :
      0 ≤ (buildMetricRow track_id (e0 :: rest) as_of_week as_of_idx N).presence_ratio
      ∧ (buildMetricRow track_id (e0 :: rest) as_of_week as_of_idx N).presence_ratio ≤ 1 := by
    rw [hp]
    constructor
    · apply div_nonneg (by positivity)
      have : (0 : ℝ) < (((as_of_idx - e0.idx) + 1 : ℤ) : ℝ) := by exact_mod_cast hage_pos
      linarith
    · rw [div_le_one (by exact_mod_cast hage_pos)]
      exact_mod_cast hlen_age
  have hms_le : (buildMetricRow track_id (e0 :: rest) as_of_week as_of_idx N).max_streak_weeks ≤ N := by
    rw [hms]
    refine le_trans (computeSegments_max_le_length _) ?_
    simpa using hN
  have hdur := buildMetricRow_durability track_id (e0 :: rest) as_of_week as_of_idx N
  have hrq := rankQualityNorm_mem
    (buildMetricRow track_id (e0 :: rest) as_of_week as_of_idx N).avg_rank
  have hlong := longevityNorm_mem
    (buildMetricRow track_id (e0 :: rest) as_of_week as_of_idx N).weeks_on_chart N
    (by rw [hw]; simp) (by rw [hw]; exact hN)
  have hstreak := streakNorm_mem
    (buildMetricRow track_id (e0 :: rest) as_of_week as_of_idx N).max_streak_weeks N hms_le hN0
  have hchurn := churnNorm_mem
    (buildMetricRow track_id (e0 :: rest) as_of_week as_of_idx N).reentry_count
  refine ⟨hdur, hrq, hlong, hstreak, hpres_mem, hchurn, ?_⟩
  rw [hdur]
  constructor
  · nlinarith [hrq.1, hrq.2, hlong.1, hlong.2, hstreak.1, hstreak.2,
      hpres_mem.1, hpres_mem.2, hchurn.1, hchurn.2]
  · nlinarith [hrq.1, hrq.2, hlong.1, hlong.2, hstreak.1, hstreak.2,
      hpres_mem.1, hpres_mem.2, hchurn.1, hchurn.2]

theorem c1_witness :
    (([(⟨0, "2025-01-06", 1⟩ : TrackWeek)] : List TrackWeek) ≠ [])
    ∧ (0 ≤ (buildMetricRow "t" [⟨0, "2025-01-06", 1⟩] "2025-01-06" 0 1).durability_score
        ∧ (buildMetricRow "t" [⟨0, "2025-01-06", 1⟩] "2025-01-06" 0 1).durability_score ≤ 1) :=
  ⟨by simp,
   (c1_durability_weighted_sum_and_bounds "t" [⟨0, "2025-01-06", 1⟩] "2025-01-06" 0 1
      (by simp) (by simp) (by decide) (by decide) (by simp)).2.2.2.2.2.2⟩

/-- Claim C2: for every non-empty strictly ascending index list,
`_compute_segments` returns the number of maximal contiguous runs, the
longest run length and the final run length; the metric row then has
`reentry_count = k - 1` and `current_streak_weeks` equal to the final run
length when the last-seen week equals the as-of week, else 0. -/
theorem c2_segments_runs_and_streak_fields :
    (∀ l : List ℤ, l ≠ [] → l.Chain' (· < ·) →
      computeSegments l =
        ((chunkRuns l).length,
         ((chunkRuns l).map List.length).foldr max 0,
         ((chunkRuns l).map List.length).getLastD 0))
    ∧ (∀ (track_id : String) (entries : List TrackWeek) (as_of_week : String)
        (as_of_idx : ℤ) (N : ℕ),
        entries ≠ [] →
        (entries.map (fun e => e.idx)).Chain' (· < ·) →
        (buildMetricRow track_id entries as_of_week as_of_idx N).reentry_count =
          (chunkRuns (entries.map (fun e => e.idx))).length - 1
        ∧ (buildMetricRow track_id entries as_of_week as_of_idx N).current_streak_weeks =
          (if (buildMetricRow track_id entries as_of_week as_of_idx N).last_seen_week
              = as_of_week
            then ((chunkRuns (entries.map (fun e => e.idx))).map List.length).getLastD 0
            else 0)) := by
  constructor
  · intro l hne _hasc
    cases l with
    | nil => exact absurd rfl hne
    | cons x xs => exact computeSegments_runs x xs
  · intro track_id entries as_of_week as_of_idx N hne hasc
    have hsor := insertionSort_idx_eq entries hasc
    obtain ⟨e0, rest, rfl⟩ : ∃ e0 rest, entries = e0 :: rest := by
      cases entries with
      | nil => exact absurd rfl hne
      | cons a l => exact ⟨a, l, rfl⟩
    have hmap : (e0 :: rest).map (fun e => e.idx) =
        e0.idx :: rest.map (fun e => e.idx) := by simp
    have hseg := computeSegments_runs e0.idx (rest.map (fun e => e.idx))
    constructor
    · rw [buildMetricRow_reentry track_id _ as_of_week as_of_idx N hsor, hmap, hseg]
    · rw [buildMetricRow_currentStreak track_id _ as_of_week as_of_idx N hsor,
        buildMetricRow_lastSeen track_id _ as_of_week as_of_idx N hsor, hmap, hseg]

theorem c2_witness :
    ((([0, 1, 3] : List ℤ) ≠ []) ∧ ([0, 1, 3] : List ℤ).Chain' (· < ·))
    ∧ computeSegments [0, 1, 3] = (2, 2, 1) := by
  refine ⟨⟨by simp, by norm_num [List.chain'_cons]⟩, ?_⟩
  rw [c2_segments_runs_and_streak_fields.1 [0, 1, 3] (by simp)
    (by norm_num [List.chain'_cons])]
  decide

/-! ### report.py: classifier (`bucket_row`) -/

/-- Qualitative label assigned by `bucket_row` (the source returns the
strings "Anchor", "Spike", "Climber", "Fader" or an em-dash). -/
inductive Bucket where
  | anchor
  | spike
  | climber
  | fader
  | none
deriving DecidableEq

/-- The fields of a durability row consumed by `bucket_row`
(floats modelled as exact rationals; nullable columns as `Option`). -/
structure ReportRow where
  durability_score : ℚ
  max_streak_weeks : ℤ
  volatility_4w : Option ℚ
  rank_stddev : Option ℚ
  age_weeks : Option ℤ
  momentum_4w : Option ℚ
  wow_delta : Option ℤ
  last_rank : Option ℤ
  weeks_on_chart : ℤ
  best_rank : ℤ
deriving DecidableEq

def DUR_HIGH : ℚ := 0.70
def STREAK_LONG : ℤ := 4
def AGE_SHORT : ℤ := 3
def AGE_LONG : ℤ := 8
def VOL_LOW : ℚ := 1.0
def VOL_HIGH : ℚ := 4.0
def STDDEV_HIGH : ℚ := 20.0
def PEAK_STRONG : ℤ := 15
def MOM_POS : ℚ := 2.0
def WOW_FALL : ℤ := -3
def AGGREGATE_STEP : ℚ := 0.15
def AGGREGATE_MAX_BOOST : ℚ := 0.60

/-- Python `x is not None and p(x)`. -/
def isSomeAnd {α : Type} (x : Option α) (p : α → Bool) : Bool :=
  match x with
  | some v => p v
  | Option.none => false

/-- The Anchor condition of `bucket_row`. -/
def anchorB (row : ReportRow) : Bool :=
  decide (DUR_HIGH ≤ row.durability_score)
    && decide (STREAK_LONG ≤ row.max_streak_weeks)
    && (isSomeAnd row.volatility_4w (fun v => decide (v ≤ VOL_LOW))
        || isSomeAnd row.rank_stddev (fun s => decide (s ≤ 10)))

/-- The Spike condition of `bucket_row`. -/
def spikeB (row : ReportRow) : Bool :=
  decide (row.weeks_on_chart ≤ 2)
    && decide (row.best_rank ≤ PEAK_STRONG)
    && (isSomeAnd row.volatility_4w (fun v => decide (VOL_HIGH ≤ v))
        || isSomeAnd row.rank_stddev (fun s => decide (STDDEV_HIGH ≤ s)))

/-- The Climber condition of `bucket_row`. -/
def climberB (row : ReportRow) : Bool :=
  isSomeAnd row.age_weeks (fun a => decide (a ≤ AGE_SHORT))
    && (isSomeAnd row.momentum_4w (fun m => decide (MOM_POS ≤ m))
        || isSomeAnd row.wow_delta (fun w => decide ((3 : ℤ) ≤ w)))
    && row.last_rank.isSome

/-- The Fader condition of `bucket_row`. -/
def faderB (row : ReportRow) : Bool :=
  decide (AGE_LONG ≤ row.weeks_on_chart)
    && (isSomeAnd row.wow_delta (fun w => decide (w ≤ WOW_FALL))
        || isSomeAnd row.momentum_4w (fun m => decide (m < 0)))

/-- `bucket_row(row)`: first matching label in strict precedence order. -/
def bucketRow (row : ReportRow) : Bucket :=
  if anchorB row then .anchor
  else if spikeB row then .spike
  else if climberB row then .climber
  else if faderB row then .fader
  else .none

/-- Spec-side Anchor condition, written from the spec text. -/
def specAnchor (row : ReportRow) : Prop :=
  0.70 ≤ row.durability_score ∧ 4 ≤ row.max_streak_weeks ∧
    ((∃ v, row.volatility_4w = some v ∧ v ≤ 1)
      ∨ (∃ s, row.rank_stddev = some s ∧ s ≤ 10))

/-- Spec-side Spike condition. -/
def specSpike (row : ReportRow) : Prop :=
  row.weeks_on_chart ≤ 2 ∧ row.best_rank ≤ 15 ∧
    ((∃ v, row.volatility_4w = some v ∧ 4 ≤ v)
      ∨ (∃ s, row.rank_stddev = some s ∧ 20 ≤ s))

/-- Spec-side Climber condition. -/
def specClimber (row : ReportRow) : Prop :=
  (∃ a, row.age_weeks = some a ∧ a ≤ 3) ∧
    ((∃ m, row.momentum_4w = some m ∧ 2 ≤ m)
      ∨ (∃ w, row.wow_delta = some w ∧ 3 ≤ w)) ∧
    (∃ r, row.last_rank = some r)

/-- Spec-side Fader condition. -/
def specFader (row : ReportRow) : Prop :=
  8 ≤ row.weeks_on_chart ∧
    ((∃ w, row.wow_delta = some w ∧ w ≤ -3)
      ∨ (∃ m, row.momentum_4w = some m ∧ m < 0))

theorem isSomeAnd_iff {α : Type} (x : Option α) (p : α → Bool) :
    isSomeAnd x p = true ↔ ∃ v, x = some v ∧ p v = true := by
  cases x <;> simp [isSomeAnd]

theorem anchorB_iff (row : ReportRow) : anchorB row = true ↔ specAnchor row := by
  simp [anchorB, specAnchor, isSomeAnd_iff, DUR_HIGH, STREAK_LONG, VOL_LOW, and_assoc]
  norm_num

theorem spikeB_iff (row : ReportRow) : spikeB row = true ↔ specSpike row := by
  simp [spikeB, specSpike, isSomeAnd_iff, PEAK_STRONG, VOL_HIGH, STDDEV_HIGH, and_assoc]
  norm_num

theorem climberB_iff (row : ReportRow) : climberB row = true ↔ specClimber row := by
  simp [climberB, specClimber, isSomeAnd_iff, AGE_SHORT, MOM_POS,
    Option.isSome_iff_exists, and_assoc]
  norm_num

theorem faderB_iff (row : ReportRow) : faderB row = true ↔ specFader row := by
  simp [faderB, specFader, isSomeAnd_iff, AGE_LONG, WOW_FALL, and_assoc]

/-- Scenario row of the spec: durability 0.75, max streak 5, 4-week
volatility 0.5. -/
def c7ScenarioRow : ReportRow :=
  { durability_score := 0.75
    max_streak_weeks := 5
    volatility_4w := some 0.5
    rank_stddev := some 3
    age_weeks := some 5
    momentum_4w := some 0
    wow_delta := some 0
    last_rank := some 10
    weeks_on_chart := 5
    best_rank := 1 }

/-- Claim C7: `bucket_row` evaluates Anchor, Spike, Climber, Fader in
strict precedence order and returns the first label whose condition holds,
otherwise no label; a row with durability 0.75, max streak 5 and
4-week volatility 0.5 is classified Anchor. -/
theorem c7_bucket_row_precedence :
    (∀ row : ReportRow,
      (bucketRow row = Bucket.anchor ↔ specAnchor row)
      ∧ (bucketRow row = Bucket.spike ↔ ¬specAnchor row ∧ specSpike row)
      ∧ (bucketRow row = Bucket.climber ↔
          ¬specAnchor row ∧ ¬specSpike row ∧ specClimber row)
      ∧ (bucketRow row = Bucket.fader ↔
          ¬specAnchor row ∧ ¬specSpike row ∧ ¬specClimber row ∧ specFader row)
      ∧ (bucketRow row = Bucket.none ↔
          ¬specAnchor row ∧ ¬specSpike row ∧ ¬specClimber row ∧ ¬specFader row))
    ∧ bucketRow c7ScenarioRow = Bucket.anchor := by
  constructor
  · intro row
    cases ha : anchorB row <;> cases hs : spikeB row <;> cases hc : climberB row <;>
      cases hf : faderB row <;>
      simp [bucketRow, ha, hs, hc, hf, ← anchorB_iff, ← spikeB_iff, ← climberB_iff,
        ← faderB_iff]
  · have h : anchorB c7ScenarioRow = true := by
      rw [anchorB_iff]
      exact ⟨by norm_num [c7ScenarioRow], by norm_num [c7ScenarioRow],
        Or.inl ⟨0.5, rfl, by norm_num⟩⟩
    simp [bucketRow, h]

/-! ### report.py: `_aggregate_across_charts` -/

/-- One per-chart durability row as fetched by `_fetch_cross_chart_rows`. -/
structure AggRow where
  chart_id : String
  chart_name : String
  chart_type : String
  as_of_week : String
  track_id : String
  title : String
  durability_score : ℚ
  weeks_on_chart : ℤ
  max_streak_weeks : ℤ
  reentry_count : ℤ
  best_rank : ℤ
  avg_rank : ℚ
  last_rank : Option ℤ
  wow_delta : Option ℤ
  rank_stddev : Option ℚ
  age_weeks : Option ℤ
  momentum_4w : Option ℚ
  volatility_4w : Option ℚ
deriving DecidableEq

/-- The `chart_entry` dict built per row inside `_aggregate_across_charts`. -/
structure ChartEntry where
  chart_id : String
  chart_name : String
  chart_type : String
  as_of_week : String
  durability_score : ℚ
  last_rank : Option ℤ
  best_rank : ℤ
  bucket : Bucket
deriving DecidableEq

/-- The `bucket_input` dict handed to `bucket_row` per chart occurrence. -/
def bucketInput (r : AggRow) : ReportRow :=
  { durability_score := r.durability_score
    max_streak_weeks := r.max_streak_weeks
    volatility_4w := r.volatility_4w
    rank_stddev := r.rank_stddev
    age_weeks := r.age_weeks
    momentum_4w := r.momentum_4w
    wow_delta := r.wow_delta
    last_rank := r.last_rank
    weeks_on_chart := r.weeks_on_chart
    best_rank := r.best_rank }

def chartEntryOf (r : AggRow) : ChartEntry :=
  { chart_id := r.chart_id
    chart_name := r.chart_name
    chart_type := r.chart_type
    as_of_week := r.as_of_week
    durability_score := r.durability_score
    last_rank := r.last_rank
    best_rank := r.best_rank
    bucket := bucketRow (bucketInput r) }

/-- `tracks.setdefault(row["track_id"], {...})["charts"].append(...)`:
append the row to its track's group, keeping first-seen key order. -/
def addRow (acc : List (String × List AggRow)) (r : AggRow) :
    List (String × List AggRow) :=
  match acc with
  | [] => [(r.track_id, [r])]
  | (k, g) :: rest =>
    if k = r.track_id then (k, g ++ [r]) :: rest else (k, g) :: addRow rest r

/-- Group rows by `track_id` in first-seen order (Python insertion-ordered
dict of lists). -/
def groupTracks (rows : List AggRow) : List (String × List AggRow) :=
  rows.foldl addRow []

def defaultChartEntry : ChartEntry :=
  { chart_id := ""
    chart_name := ""
    chart_type := ""
    as_of_week := ""
    durability_score := 0
    last_rank := Option.none
    best_rank := 0
    bucket := Bucket.none }

def defaultAggRow : AggRow :=
  { chart_id := ""
    chart_name := ""
    chart_type := ""
    as_of_week := ""
    track_id := ""
    title := ""
    durability_score := 0
    weeks_on_chart := 0
    max_streak_weeks := 0
    reentry_count := 0
    best_rank := 0
    avg_rank := 0
    last_rank := Option.none
    wow_delta := Option.none
    rank_stddev := Option.none
    age_weeks := Option.none
    momentum_4w := Option.none
    volatility_4w := Option.none }

/-- The aggregated per-track record. -/
structure TrackAgg where
  track_id : String
  title : String
  charts : List ChartEntry
  chart_count : ℕ
  top_chart_count : ℕ
  hype_chart_count : ℕ
  avg_durability : ℚ
  max_durability : ℚ
  aggregate_multiplier : ℚ
  aggregate_score : ℚ
  bucket : Bucket
deriving DecidableEq

instance decChartEntryDesc :
    DecidableRel (fun (a b : ChartEntry) => b.durability_score ≤ a.durability_score) :=
  fun a b => inferInstanceAs (Decidable (b.durability_score ≤ a.durability_score))

instance decTrackAggDesc :
    DecidableRel (fun (a b : TrackAgg) => b.aggregate_score ≤ a.aggregate_score) :=
  fun a b => inferInstanceAs (Decidable (b.aggregate_score ≤ a.aggregate_score))

/-- The per-track finalization loop body of `_aggregate_across_charts`
(sort charts by durability descending, compute counts, average, capped
multiplier, aggregate score, and the primary label from the
highest-durability occurrence). -/
def finalizeTrack (track_id : String) (grp : List AggRow) : TrackAgg :=
  let charts := List.insertionSort
    (fun a b => b.durability_score ≤ a.durability_score) (grp.map chartEntryOf)
  let chart_count := charts.length
  let durabilities := charts.map (fun c => c.durability_score)
  let top_chart_count := (charts.filter (fun c => c.chart_type = "top100")).length
  let hype_chart_count := (charts.filter (fun c => c.chart_type = "hype")).length
  let avg_durability := if chart_count ≠ 0 then durabilities.sum / (chart_count : ℚ) else 0
  let max_durability := match durabilities with
    | [] => 0
    | d :: ds => ds.foldl max d
  let multiplier :=
    min (1 + AGGREGATE_STEP * ((chart_count : ℚ) - 1)) (1 + AGGREGATE_MAX_BOOST)
  let bucket := ((List.insertionSort
    (fun a b => b.durability_score ≤ a.durability_score) charts).headD
      defaultChartEntry).bucket
  { track_id := track_id
    title := (grp.headD defaultAggRow).title
    charts := charts
    chart_count := chart_count
    top_chart_count := top_chart_count
    hype_chart_count := hype_chart_count
    avg_durability := avg_durability
    max_durability := max_durability
    aggregate_multiplier := multiplier
    aggregate_score := avg_durability * multiplier
    bucket := bucket }

/-- `_aggregate_across_charts(rows)`: group by track, finalize each track,
keep tracks on at least 2 charts, sort by aggregate score descending. -/
def aggregateAcrossCharts (rows : List AggRow) : List TrackAgg :=
  let tracks := (groupTracks rows).map (fun p => finalizeTrack p.1 p.2)
  let eligible := tracks.filter (fun t => 2 ≤ t.chart_count)
  List.insertionSort (fun a b => b.aggregate_score ≤ a.aggregate_score) eligible

/-- Look up a track's group in the accumulator. -/
def lookupGroup (acc : List (String × List AggRow)) (k : String) :
    Option (List AggRow) :=
  (acc.find? (fun p => p.1 = k)).map Prod.snd

theorem lookupGroup_cons (k0 : String) (g : List AggRow)
    (rest : List (String × List AggRow)) (k : String) :
    lookupGroup ((k0, g) :: rest) k =
      if k = k0 then some g else lookupGroup rest k := by
  by_cases h : k = k0
  · subst h
    simp [lookupGroup, List.find?]
  · have h2 : (decide (k0 = k)) = false := decide_eq_false (Ne.symm h)
    simp [lookupGroup, List.find?, h2, if_neg h]

theorem lookupGroup_addRow (acc : List (String × List AggRow)) (r : AggRow)
    (k : String) :
    lookupGroup (addRow acc r) k =
      if k = r.track_id then some ((lookupGroup acc k).getD [] ++ [r])
      else lookupGroup acc k := by
  induction acc with
  | nil =>
    by_cases h : k = r.track_id
    · subst h
      simp [addRow, lookupGroup_cons, lookupGroup, List.find?]
    · simp only [addRow, lookupGroup_cons, if_neg h]
  | cons p rest ih =>
    obtain ⟨k0, g⟩ := p
    by_cases h1 : k0 = r.track_id
    · simp only [addRow, if_pos h1]
      by_cases h2 : k = k0
      · subst h2
        rw [lookupGroup_cons, lookupGroup_cons, if_pos rfl, if_pos rfl,
          if_pos h1]
        rfl
      · rw [lookupGroup_cons, lookupGroup_cons, if_neg h2, if_neg h2]
        rw [if_neg (by rw [← h1]; exact h2)]
    · simp only [addRow, if_neg h1]
      by_cases h2 : k = k0
      · subst h2
        rw [lookupGroup_cons, lookupGroup_cons, if_pos rfl, if_pos rfl,
          if_neg h1]
      · rw [lookupGroup_cons, lookupGroup_cons, if_neg h2, if_neg h2, ih]

theorem lookupGroup_foldl (rows : List AggRow) :
    ∀ (acc : List (String × List AggRow)) (k : String),
      lookupGroup (rows.foldl addRow acc) k =
        if rows.filter (fun r => r.track_id = k) = [] then lookupGroup acc k
        else some ((lookupGroup acc k).getD [] ++
          rows.filter (fun r => r.track_id = k)) := by
  induction rows with
  | nil => intro acc k; simp
  | cons r rs ih =>
    intro acc k
    rw [List.foldl_cons, ih (addRow acc r) k, lookupGroup_addRow acc r k]
    by_cases h1 : r.track_id = k
    · have hf : (r :: rs).filter (fun x => x.track_id = k) =
          r :: rs.filter (fun x => x.track_id = k) := by
        simp [List.filter_cons, h1]
      rw [hf, if_pos h1.symm]
      by_cases h2 : rs.filter (fun x => x.track_id = k) = []
      · rw [if_pos h2, if_neg (List.cons_ne_nil _ _)]
        simp [h2]
      · rw [if_neg h2, if_neg (List.cons_ne_nil _ _)]
        simp [List.append_assoc]
    · have hf : (r :: rs).filter (fun x => x.track_id = k) =
          rs.filter (fun x => x.track_id = k) := by
        simp [List.filter_cons, h1]
      have hknr : ¬ k = r.track_id := fun hh => h1 hh.symm
      rw [if_neg hknr, hf]
  
theorem lookupGroup_groupTracks (rows : List AggRow) (k : String) :
    lookupGroup (groupTracks rows) k =
      if rows.filter (fun r => r.track_id = k) = [] then Option.none
      else some (rows.filter (fun r => r.track_id = k)) := by
  have h := lookupGroup_foldl rows [] k
  have h0 : lookupGroup [] k = Option.none := by simp [lookupGroup]
  rw [groupTracks, h, h0]
  split_ifs <;> simp

theorem keys_addRow (acc : List (String × List AggRow)) (r : AggRow) :
    (addRow acc r).map Prod.fst =
      if r.track_id ∈ acc.map Prod.fst then acc.map Prod.fst
      else acc.map Prod.fst ++ [r.track_id] := by
  induction acc with
  | nil => simp [addRow]
  | cons p rest ih =>
    obtain ⟨k0, g⟩ := p
    by_cases h1 : k0 = r.track_id
    · simp [addRow, if_pos h1, h1]
    · simp only [addRow, if_neg h1, List.map_cons, ih]
      by_cases h2 : r.track_id ∈ rest.map Prod.fst
      · rw [if_pos h2, if_pos (by simp [h2])]
      · rw [if_neg h2]
        have hnm : r.track_id ∉ (k0 :: rest.map Prod.fst) := by
          simp only [List.mem_cons]
          rintro (hh | hh)
          · exact h1 hh.symm
          · exact h2 hh
        rw [if_neg hnm]
        simp

theorem keys_nodup_addRow (acc : List (String × List AggRow)) (r : AggRow)
    (h : (acc.map Prod.fst).Nodup) : ((addRow acc r).map Prod.fst).Nodup := by
  rw [keys_addRow]
  split_ifs with hmem
  · exact h
  · simp [List.nodup_append, h, hmem]

theorem keys_nodup_groupTracks (rows : List AggRow) :
    ((groupTracks rows).map Prod.fst).Nodup := by
  rw [groupTracks]
  have haux : ∀ (acc : List (String × List AggRow)), (acc.map Prod.fst).Nodup →
      ((rows.foldl addRow acc).map Prod.fst).Nodup := by
    induction rows with
    | nil => intro acc h; exact h
    | cons r rs ih =>
      intro acc h
      exact ih (addRow acc r) (keys_nodup_addRow acc r h)
  exact haux [] (by simp)

theorem mem_iff_lookupGroup (acc : List (String × List AggRow))
    (hnd : (acc.map Prod.fst).Nodup) (k : String) (g : List AggRow) :
    (k, g) ∈ acc ↔ lookupGroup acc k = some g := by
  induction acc with
  | nil => simp [lookupGroup]
  | cons p rest ih =>
    obtain ⟨k0, g0⟩ := p
    rw [lookupGroup_cons]
    simp only [List.map_cons, List.nodup_cons] at hnd
    by_cases h : k = k0
    · subst h
      rw [if_pos rfl]
      constructor
      · intro hm
        rcases List.mem_cons.mp hm with heq | hmem
        · injection heq with h1 h2
          rw [h2]
        · exact absurd (by simpa using List.mem_map_of_mem Prod.fst hmem) hnd.1
      · intro hs
        injection hs with hs2
        rw [hs2]
        exact List.mem_cons_self _ _
    · rw [if_neg h, ← ih hnd.2]
      constructor
      · intro hm
        rcases List.mem_cons.mp hm with heq | hmem
        · exact absurd (congrArg Prod.fst heq) h
        · exact hmem
      · exact fun hm => List.mem_cons_of_mem _ hm

/-- Membership characterization of the grouping step: the groups produced
by the `setdefault`/append loop are exactly the per-key filters of the
input, keyed by the distinct track ids. -/
theorem mem_groupTracks_iff (rows : List AggRow) (k : String) (g : List AggRow) :
    (k, g) ∈ groupTracks rows ↔
      (rows.filter (fun r => r.track_id = k) ≠ []
        ∧ g = rows.filter (fun r => r.track_id = k)) := by
  rw [mem_iff_lookupGroup _ (keys_nodup_groupTracks rows), lookupGroup_groupTracks]
  split_ifs with h
  · simp [h]
  · constructor
    · intro hs
      injection hs with hs2
      exact ⟨h, hs2.symm⟩
    · rintro ⟨h1, rfl⟩
      rfl

instance totChartDesc :
    IsTotal ChartEntry (fun a b => b.durability_score ≤ a.durability_score) :=
  ⟨fun a b => le_total b.durability_score a.durability_score⟩

instance transChartDesc :
    IsTrans ChartEntry (fun a b => b.durability_score ≤ a.durability_score) :=
  ⟨fun _ _ _ h1 h2 => le_trans h2 h1⟩

instance totTrackDesc :
    IsTotal TrackAgg (fun a b => b.aggregate_score ≤ a.aggregate_score) :=
  ⟨fun a b => le_total b.aggregate_score a.aggregate_score⟩

instance transTrackDesc :
    IsTrans TrackAgg (fun a b => b.aggregate_score ≤ a.aggregate_score) :=
  ⟨fun _ _ _ h1 h2 => le_trans h2 h1⟩

theorem finalizeTrack_track_id (k : String) (g : List AggRow) :
    (finalizeTrack k g).track_id = k := rfl

theorem finalizeTrack_chart_count (k : String) (g : List AggRow) :
    (finalizeTrack k g).chart_count = g.length := by
  simp only [finalizeTrack]
  rw [(List.perm_insertionSort _ _).length_eq, List.length_map]

theorem finalizeTrack_avg (k : String) (g : List AggRow) :
    (finalizeTrack k g).avg_durability =
      if (finalizeTrack k g).chart_count ≠ 0 then
        (g.map (fun r => r.durability_score)).sum /
          ((finalizeTrack k g).chart_count : ℚ)
      else 0 := by
  rw [finalizeTrack_chart_count]
  simp only [finalizeTrack]
  rw [(List.perm_insertionSort _ _).length_eq, List.length_map]
  have hsum : ((List.insertionSort
        (fun a b => b.durability_score ≤ a.durability_score)
        (g.map chartEntryOf)).map (fun c => c.durability_score)).sum =
      (g.map (fun r => r.durability_score)).sum := by
    rw [((List.perm_insertionSort _ _).map
        (fun c : ChartEntry => c.durability_score)).sum_eq,
      List.map_map]
    rfl
  rw [hsum]

theorem finalizeTrack_multiplier (k : String) (g : List AggRow) :
    (finalizeTrack k g).aggregate_multiplier =
      min (1 + 0.15 * (((finalizeTrack k g).chart_count : ℚ) - 1)) 1.60 := by
  rw [finalizeTrack_chart_count]
  simp only [finalizeTrack]
  rw [(List.perm_insertionSort _ _).length_eq, List.length_map]
  norm_num [AGGREGATE_STEP, AGGREGATE_MAX_BOOST]

theorem finalizeTrack_score (k : String) (g : List AggRow) :
    (finalizeTrack k g).aggregate_score =
      (finalizeTrack k g).avg_durability * (finalizeTrack k g).aggregate_multiplier :=
  rfl

theorem finalizeTrack_bucket (k : String) (g : List AggRow) (hne : g ≠ []) :
    ∃ c ∈ (finalizeTrack k g).charts,
      (∀ d ∈ (finalizeTrack k g).charts,
        d.durability_score ≤ c.durability_score)
      ∧ (finalizeTrack k g).bucket = c.bucket := by
  simp only [finalizeTrack]
  set charts := List.insertionSort
    (fun a b => b.durability_score ≤ a.durability_score) (g.map chartEntryOf)
    with hcharts
  set resorted := List.insertionSort
    (fun a b => b.durability_score ≤ a.durability_score) charts with hres
  have hperm : resorted.Perm charts := List.perm_insertionSort _ _
  have hsorted : resorted.Sorted (fun a b => b.durability_score ≤ a.durability_score) :=
    List.sorted_insertionSort _ _
  have hne2 : resorted ≠ [] := by
    intro hnil
    have : charts = [] := by
      have := hperm.length_eq
      rw [hnil] at this
      exact List.length_eq_zero.mp this.symm
    have hg : g.map chartEntryOf = [] := by
      have hp2 := List.perm_insertionSort
        (fun (a b : ChartEntry) => b.durability_score ≤ a.durability_score)
        (g.map chartEntryOf)
      rw [← hcharts, this] at hp2
      exact (List.Perm.nil_eq hp2).symm
    exact hne (List.map_eq_nil_iff.mp hg)
  obtain ⟨c, cs, hcons⟩ : ∃ c cs, resorted = c :: cs := by
    cases hr : resorted with
    | nil => exact absurd hr hne2
    | cons a l => exact ⟨a, l, rfl⟩
  refine ⟨c, ?_, ?_, ?_⟩
  · have : c ∈ resorted := by rw [hcons]; exact List.mem_cons_self _ _
    exact hperm.subset this
  · intro d hd
    have hd2 : d ∈ resorted := hperm.symm.subset hd
    rw [hcons] at hd2
    rcases List.mem_cons.mp hd2 with heq | hmem
    · rw [heq]
    · have := List.rel_of_sorted_cons (hcons ▸ hsorted) d hmem
      exact this
  · simp only [hcons, List.headD_cons]

theorem filter_chartIds_nodup (rows : List AggRow) (k : String)
    (hnd : (rows.map (fun r => (r.track_id, r.chart_id))).Nodup) :
    ((rows.filter (fun r => r.track_id = k)).map (fun r => r.chart_id)).Nodup := by
  have hsub : ((rows.filter (fun r => r.track_id = k)).map
      (fun r => (r.track_id, r.chart_id))).Sublist
      (rows.map (fun r => (r.track_id, r.chart_id))) :=
    (List.filter_sublist _).map _
  have hnd2 := hsub.nodup hnd
  have hmap : (rows.filter (fun r => r.track_id = k)).map (fun r => r.chart_id) =
      ((rows.filter (fun r => r.track_id = k)).map
        (fun r => (r.track_id, r.chart_id))).map Prod.snd := by
    rw [List.map_map]
    rfl
  rw [hmap]
  refine List.Nodup.map_on ?_ hnd2
  intro x hx y hy hxy
  obtain ⟨rx, hrx, rfl⟩ := List.mem_map.mp hx
  obtain ⟨ry, hry, rfl⟩ := List.mem_map.mp hy
  have hkx : rx.track_id = k := by simpa using (List.mem_filter.mp hrx).2
  have hky : ry.track_id = k := by simpa using (List.mem_filter.mp hry).2
  simp only at hxy
  simp [hkx, hky, hxy]

theorem mem_aggregate_iff (rows : List AggRow) (t : TrackAgg) :
    t ∈ aggregateAcrossCharts rows ↔
      (∃ k g, (k, g) ∈ groupTracks rows ∧ t = finalizeTrack k g
        ∧ 2 ≤ t.chart_count) := by
  simp only [aggregateAcrossCharts]
  rw [(List.perm_insertionSort _ _).mem_iff, List.mem_filter]
  constructor
  · rintro ⟨hmem, hcnt⟩
    obtain ⟨p, hp, rfl⟩ := List.mem_map.mp hmem
    exact ⟨p.1, p.2, hp, rfl, by simpa using hcnt⟩
  · rintro ⟨k, g, hkg, rfl, hcnt⟩
    exact ⟨List.mem_map_of_mem _ hkg, by simpa using hcnt⟩

/-- Scenario rows of the spec: one track on two charts with durability
0.8 and 0.6. -/
def c6RowA : AggRow :=
  { defaultAggRow with
      chart_id := "chart-a"
      track_id := "t1"
      durability_score := 0.8 }

def c6RowB : AggRow :=
  { defaultAggRow with
      chart_id := "chart-b"
      track_id := "t1"
      durability_score := 0.6 }

/-- Claim C6: the aggregator groups rows by item identity; each leaderboard
item has `chart_count` equal to the number of charts it appears on,
`avg_durability` the mean of its per-chart durability scores,
`multiplier = min(1 + 0.15*(chart_count - 1), 1.60)`,
`aggregate_score = avg_durability * multiplier`; only items with
`chart_count >= 2` appear, sorted descending by `aggregate_score`, and the
displayed label comes from a highest-durability chart occurrence.
Scores 0.8 and 0.6 on two charts give avg 0.7, multiplier 1.15 and
aggregate 0.805. -/
theorem c6_aggregate_across_charts :
    (∀ rows : List AggRow,
      (rows.map (fun r => (r.track_id, r.chart_id))).Nodup →
      (∀ t ∈ aggregateAcrossCharts rows,
        t.chart_count = (rows.filter (fun r => r.track_id = t.track_id)).length
        ∧ ((rows.filter (fun r => r.track_id = t.track_id)).map
            (fun r => r.chart_id)).Nodup
        ∧ t.avg_durability =
            ((rows.filter (fun r => r.track_id = t.track_id)).map
              (fun r => r.durability_score)).sum / (t.chart_count : ℚ)
        ∧ t.aggregate_multiplier =
            min (1 + 0.15 * ((t.chart_count : ℚ) - 1)) 1.60
        ∧ t.aggregate_score = t.avg_durability * t.aggregate_multiplier
        ∧ 2 ≤ t.chart_count
        ∧ ∃ c ∈ t.charts,
            (∀ d ∈ t.charts, d.durability_score ≤ c.durability_score)
            ∧ t.bucket = c.bucket)
      ∧ (aggregateAcrossCharts rows).Sorted
          (fun a b => b.aggregate_score ≤ a.aggregate_score))
    ∧ (∀ t ∈ aggregateAcrossCharts [c6RowA, c6RowB],
        t.avg_durability = 0.7 ∧ t.aggregate_multiplier = 1.15
          ∧ t.aggregate_score = 0.805) := by
  have hmain : ∀ rows : List AggRow,
      (rows.map (fun r => (r.track_id, r.chart_id))).Nodup →
      (∀ t ∈ aggregateAcrossCharts rows,
        t.chart_count = (rows.filter (fun r => r.track_id = t.track_id)).length
        ∧ ((rows.filter (fun r => r.track_id = t.track_id)).map
            (fun r => r.chart_id)).Nodup
        ∧ t.avg_durability =
            ((rows.filter (fun r => r.track_id = t.track_id)).map
              (fun r => r.durability_score)).sum / (t.chart_count : ℚ)
        ∧ t.aggregate_multiplier =
            min (1 + 0.15 * ((t.chart_count : ℚ) - 1)) 1.60
        ∧ t.aggregate_score = t.avg_durability * t.aggregate_multiplier
        ∧ 2 ≤ t.chart_count
        ∧ ∃ c ∈ t.charts,
            (∀ d ∈ t.charts, d.durability_score ≤ c.durability_score)
            ∧ t.bucket = c.bucket)
      ∧ (aggregateAcrossCharts rows).Sorted
          (fun a b => b.aggregate_score ≤ a.aggregate_score) := by
    intro rows hnd
    constructor
    · intro t ht
      obtain ⟨k, g, hkg, rfl, hcnt⟩ := (mem_aggregate_iff rows t).mp ht
      obtain ⟨hgne, hgeq⟩ := (mem_groupTracks_iff rows k g).mp hkg
      have htid : (finalizeTrack k g).track_id = k := finalizeTrack_track_id k g
      have hcount := finalizeTrack_chart_count k g
      have hcne : (finalizeTrack k g).chart_count ≠ 0 := by omega
      have hgne2 : g ≠ [] := by
        intro hg0
        subst hg0
        simp at hcount
        omega
      refine ⟨?_, ?_, ?_, ?_, ?_, hcnt, ?_⟩
      · rw [htid, hcount, hgeq]
      · rw [htid]
        exact filter_chartIds_nodup rows k hnd
      · rw [htid, ← hgeq]
        rw [finalizeTrack_avg, if_pos hcne]
      · exact finalizeTrack_multiplier k g
      · exact finalizeTrack_score k g
      · exact finalizeTrack_bucket k g hgne2
    · exact List.sorted_insertionSort _ _
  refine ⟨hmain, ?_⟩
  have hnd2 : ([c6RowA, c6RowB].map (fun r => (r.track_id, r.chart_id))).Nodup := by
    simp [c6RowA, c6RowB, defaultAggRow]
  intro t ht
  have h := (hmain [c6RowA, c6RowB] hnd2).1 t ht
  obtain ⟨k, g, hkg, rfl, hcnt⟩ := (mem_aggregate_iff _ t).mp ht
  obtain ⟨hgne, hgeq⟩ := (mem_groupTracks_iff _ k g).mp hkg
  -- identify the group: the only key with a non-empty filter is "t1"
  have hk : k = "t1" := by
    cases hf : [c6RowA, c6RowB].filter (fun r => r.track_id = k) with
    | nil => exact absurd hf hgne
    | cons r rest =>
      have hr : r ∈ [c6RowA, c6RowB].filter (fun r2 => r2.track_id = k) := by
        rw [hf]
        exact List.mem_cons_self _ _
      have h1 := List.mem_filter.mp hr
      have h2 : r.track_id = k := by simpa using h1.2
      rcases List.mem_cons.mp h1.1 with hA | hB
      · rw [← h2, hA]
        rfl
      · rcases List.mem_cons.mp hB with hB2 | hB3
        · rw [← h2, hB2]
          rfl
        · simp at hB3
  subst hk
  have hgval : g = [c6RowA, c6RowB] := by
    rw [hgeq]
    simp [c6RowA, c6RowB, defaultAggRow, List.filter_cons]
  subst hgval
  have hfilter : ([c6RowA, c6RowB].filter
      (fun r => r.track_id = (finalizeTrack "t1" [c6RowA, c6RowB]).track_id)) =
      [c6RowA, c6RowB] := by
    rw [finalizeTrack_track_id]
    simp [c6RowA, c6RowB, defaultAggRow, List.filter_cons]
  obtain ⟨h1, h2, h3, h4, h5, h6, h7⟩ := h
  rw [hfilter] at h1 h3
  have hcount2 : (finalizeTrack "t1" [c6RowA, c6RowB]).chart_count = 2 := by
    rw [h1]; rfl
  have havg : (finalizeTrack "t1" [c6RowA, c6RowB]).avg_durability = 0.7 := by
    rw [h3, hcount2]
    norm_num [c6RowA, c6RowB, defaultAggRow]
  have hmult : (finalizeTrack "t1" [c6RowA, c6RowB]).aggregate_multiplier = 1.15 := by
    rw [h4, hcount2]
    norm_num
  refine ⟨havg, hmult, ?_⟩
  rw [h5, havg, hmult]
  norm_num

theorem c6_witness :
    (([c6RowA, c6RowB].map (fun r => (r.track_id, r.chart_id))).Nodup)
    ∧ (aggregateAcrossCharts [c6RowA, c6RowB]).Sorted
        (fun a b => b.aggregate_score ≤ a.aggregate_score) := by
  have hnd : ([c6RowA, c6RowB].map (fun r => (r.track_id, r.chart_id))).Nodup := by
    simp [c6RowA, c6RowB, defaultAggRow]
  exact ⟨hnd, (c6_aggregate_across_charts.1 [c6RowA, c6RowB] hnd).2⟩

/-! ### fetch.py: JSON payload model and parsing strategies -/

/-- A parsed JSON value (the embedded `__NEXT_DATA__` tree). Numbers are
modelled as integers (the identity fields the parser consumes). -/
inductive JsonVal where
  | null
  | bool (b : Bool)
  | num (n : ℤ)
  | str (s : String)
  | arr (xs : List JsonVal)
  | obj (fields : List (String × JsonVal))

/-- Python `str.strip()` on a character list. -/
def trimChars (cs : List Char) : List Char :=
  ((cs.dropWhile Char.isWhitespace).reverse.dropWhile Char.isWhitespace).reverse

/-- Python `str.strip()`. -/
def strTrim (s : String) : String := String.mk (trimChars s.toList)

/-- Python `sub in s` for strings. -/
def containsSub : List Char → List Char → Bool
  | s, pat =>
    if List.isPrefixOf pat s then true
    else match s with
      | [] => false
      | _ :: rest => containsSub rest pat

/-- Python `int(s)` (digits with optional sign, surrounding whitespace). -/
def parseNatChars (cs : List Char) : Option ℕ :=
  if cs.isEmpty then Option.none
  else if cs.all Char.isDigit then
    some (cs.foldl (fun acc c => acc * 10 + (c.toNat - 48)) 0)
  else Option.none

def parseIntPy (s : String) : Option ℤ :=
  match trimChars s.toList with
  | '-' :: rest => (parseNatChars rest).map (fun n => -(n : ℤ))
  | '+' :: rest => (parseNatChars rest).map (fun n => (n : ℤ))
  | cs => (parseNatChars cs).map (fun n => (n : ℤ))

/-- Python truthiness of a JSON value. -/
def jsonFalsy : JsonVal → Bool
  | .null => true
  | .bool b => !b
  | .num n => n == 0
  | .str s => s == ""
  | .arr xs => xs.isEmpty
  | .obj fs => fs.isEmpty

def jsonTruthy (v : JsonVal) : Bool := !(jsonFalsy v)

/-- Dictionary field lookup (`d.get(k)`). -/
def lookupField : List (String × JsonVal) → String → Option JsonVal
  | [], _ => Option.none
  | (k, v) :: rest, key => if k = key then some v else lookupField rest key

/-- Python `obj.get(k) or {}`: raises (`.error`) when `obj` is not a dict;
replaces a missing or falsy value with the empty dict. -/
def getAttrOrEmpty (v : JsonVal) (key : String) : Except Unit JsonVal :=
  match v with
  | .obj fs => .ok (match lookupField fs key with
      | some x => if jsonFalsy x then .obj [] else x
      | Option.none => .obj [])
  | _ => .error ()

/-- Python `obj.get(k) or []` with the same exception semantics. -/
def getAttrOrList (v : JsonVal) (key : String) : Except Unit JsonVal :=
  match v with
  | .obj fs => .ok (match lookupField fs key with
      | some x => if jsonFalsy x then .arr [] else x
      | Option.none => .arr [])
  | _ => .error ()

/-- Python iteration over a value: lists yield elements, dicts yield their
keys, strings yield 1-character strings, everything else raises. -/
def iterVals : JsonVal → Except Unit (List JsonVal)
  | .arr xs => .ok xs
  | .obj fs => .ok (fs.map (fun p => .str p.1))
  | .str s => .ok (s.toList.map (fun c => .str (String.mk [c])))
  | _ => .error ()

/-- Python `key in v`: key membership for dicts, element membership for
lists, substring test for strings, raises otherwise. -/
def jsonContains (v : JsonVal) (key : String) : Except Unit Bool :=
  match v with
  | .obj fs => .ok ((lookupField fs key).isSome)
  | .arr xs => .ok (xs.any (fun x => match x with
      | .str s => s == key
      | _ => false))
  | .str s => .ok (containsSub s.toList key.toList)
  | _ => .error ()

/-- Python `v[key]`: valid only on dicts. -/
def jsonIndex (v : JsonVal) (key : String) : Except Unit JsonVal :=
  match v with
  | .obj fs => match lookupField fs key with
    | some x => .ok x
    | Option.none => .error ()
  | _ => .error ()

/-- Loop body of `_check_genre_supports_hype` over the dehydrated queries. -/
def hypeLoop : List JsonVal → Except Unit (Option Bool)
  | [] => .ok Option.none
  | q :: rest =>
    match q with
    | .obj _ => do
      let state ← getAttrOrEmpty q "state"
      let data ← getAttrOrEmpty state "data"
      let hasKey ← jsonContains data "is_included_in_hype"
      if hasKey then do
        let v ← jsonIndex data "is_included_in_hype"
        .ok (some (jsonTruthy v))
      else hypeLoop rest
    | _ => hypeLoop rest

/-- `_check_genre_supports_hype(next_data)`: walks
`props.pageProps.dehydratedState.queries` looking for
`is_included_in_hype`; any exception yields `None`. -/
def checkGenreSupportsHype (next_data : JsonVal) : Option Bool :=
  match (do
    let props ← getAttrOrEmpty next_data "props"
    let page_props ← getAttrOrEmpty props "pageProps"
    let dehydrated ← getAttrOrEmpty page_props "dehydratedState"
    let queries ← getAttrOrList dehydrated "queries"
    let qlist ← iterVals queries
    hypeLoop qlist : Except Unit (Option Bool)) with
  | .ok r => r
  | .error _ => Option.none

/-- `_is_track_like_dict(d)`. -/
def helpfulKeys : List String :=
  ["slug", "bpm", "genre", "image", "artists", "release_date", "encoded_date",
   "current_status"]

/-- Python `d.get("name") or d.get("title")` (falsy chains to the next). -/
def nameOrTitle (fs : List (String × JsonVal)) : JsonVal :=
  let n1 := (lookupField fs "name").getD .null
  if jsonFalsy n1 then (lookupField fs "title").getD .null else n1

def isTrackLikeFields (fs : List (String × JsonVal)) : Bool :=
  match lookupField fs "id" with
  | Option.none => false
  | some idv =>
    (match idv with
      | .num _ => true
      | .str _ => true
      | _ => false)
    && (match nameOrTitle fs with
      | .str s => !(strTrim s == "")
      | _ => false)
    && decide (2 ≤ (helpfulKeys.filter (fun k => (lookupField fs k).isSome)).length)

def isTrackLikeJson : JsonVal → Bool
  | .obj fs => isTrackLikeFields fs
  | _ => false

/-- Python `str(v)` for identity values (`id` is an int or str here). -/
def jsonIdStr : JsonVal → Option String
  | .num n => some (toString n)
  | .str s => some s
  | _ => Option.none

/-- `_extract_track_href_from_track_obj(d)`: a URL-ish key containing
"/track/", else a `/track/{slug}/{id}` built from slug + id. -/
def extractTrackHref (fs : List (String × JsonVal)) : Option String :=
  match ["url", "href", "path", "canonicalUrl", "canonical_url"].findSome?
      (fun k => match lookupField fs k with
        | some (.str v) =>
          if containsSub v.toList "/track/".toList then some v else Option.none
        | _ => Option.none) with
  | some v => some v
  | Option.none =>
    match lookupField fs "slug" with
    | some (.str sl) =>
      if strTrim sl == "" then Option.none
      else match lookupField fs "id" with
        | some (.num n) => some ("/track/" ++ sl ++ "/" ++ toString n)
        | some (.str s2) => some ("/track/" ++ sl ++ "/" ++ s2)
        | _ => Option.none
    | _ => Option.none

/-- `TRACK_ID_RE = /track/[^/]+/(\d+)`: match attempt at one position. -/
def matchTrackAt (cs : List Char) : Option (List Char) :=
  let pat := "/track/".toList
  if List.isPrefixOf pat cs then
    let rest := cs.drop pat.length
    let seg := rest.takeWhile (fun c => c ≠ '/')
    if seg.isEmpty then Option.none
    else
      match rest.drop seg.length with
      | '/' :: tail =>
        let ds := tail.takeWhile Char.isDigit
        if ds.isEmpty then Option.none else some ds
      | _ => Option.none
  else Option.none

/-- `TRACK_ID_RE.search(href)` followed by `.group(1)` (leftmost match). -/
def searchTrackId : List Char → Option String
  | [] => Option.none
  | c :: rest =>
    match matchTrackAt (c :: rest) with
    | some ds => some (String.mk ds)
    | Option.none => searchTrackId rest

def trackIdRe (href : String) : Option String := searchTrackId href.toList

/-- `_build_url(href)`: `urljoin` modelled for the absolute and path-only
href shapes the parser produces. -/
def buildUrl (href : String) : Option String :=
  if href == "" then Option.none
  else if containsSub href.toList "://".toList then some href
  else some ("https://www.beatport.com" ++ href)

/-- One parsed chart entry. -/
structure Entry where
  track_id : String
  title : String
  mix_name : Option String
  artists : List String
  remixers : List String
  url : String
  rank : ℤ
deriving DecidableEq

/-- `_extract_people`: keep the stripped name/title of each dict element. -/
def peopleName (fs : List (String × JsonVal)) : Option String :=
  match nameOrTitle fs with
  | .str s => if strTrim s == "" then Option.none else some (strTrim s)
  | _ => Option.none

def extractPeople : JsonVal → List String
  | .arr xs => xs.filterMap (fun o => match o with
      | .obj fs => peopleName fs
      | _ => Option.none)
  | _ => []

/-- `_extract_mix_name(d)`. -/
def extractMixName (fs : List (String × JsonVal)) : Option String :=
  ["mix", "mix_name", "mixName"].findSome? (fun k =>
    match lookupField fs k with
    | some (.str s) => if strTrim s == "" then Option.none else some (strTrim s)
    | _ => Option.none)

/-- `(item.get("name") or item.get("title") or "").strip() or
f"track-{track_id}"`. -/
def titleOf (fs : List (String × JsonVal)) (track_id : String) : String :=
  match nameOrTitle fs with
  | .str s => if strTrim s == "" then "track-" ++ track_id else strTrim s
  | _ => "track-" ++ track_id

mutual
/-- `_walk_lists(obj)`: pre-order enumeration of every array node. -/
def walkLists : JsonVal → List (List JsonVal)
  | .arr xs => xs :: walkListsArr xs
  | .obj fs => walkListsFields fs
  | _ => []

def walkListsArr : List JsonVal → List (List JsonVal)
  | [] => []
  | v :: vs => walkLists v ++ walkListsArr vs

def walkListsFields : List (String × JsonVal) → List (List JsonVal)
  | [] => []
  | (_, v) :: fs => walkLists v ++ walkListsFields fs
end

/-- Selection state of the `_parse_chart_from_next_data_order` scan
(`best_list`, `best_score`, `best_len`). -/
structure SelState where
  best_list : List JsonVal
  best_score : ℕ
  best_len : ℕ

/-- Item-like count of an array, capped at the first 250 elements
(`lst[: min(len(lst), 250)]`). -/
def countTrackish (lst : List JsonVal) : ℕ :=
  ((lst.take 250).filter (fun item => isTrackLikeJson item)).length

/-- One candidate-array consideration step of the scan, with the float
density test written exactly as in the source. -/
def considerList (st : SelState) (lst : List JsonVal) : SelState :=
  if lst.length < 20 then st
  else
    let trackish := countTrackish lst
    if trackish < 20 then st
    else if (trackish : ℚ) / ((max lst.length 1 : ℕ) : ℚ) < 0.50 then st
    else if (st.best_score < trackish)
        ∨ (trackish = st.best_score ∧ st.best_len < lst.length) then
      ⟨lst, trackish, lst.length⟩
    else st

/-- Integer form of `considerList` (the density test `t/len < 0.50`
is `2*t < len` exactly, since `len >= 20`). -/
def considerListN (st : SelState) (lst : List JsonVal) : SelState :=
  if lst.length < 20 then st
  else
    let trackish := countTrackish lst
    if trackish < 20 then st
    else if 2 * trackish < max lst.length 1 then st
    else if (st.best_score < trackish)
        ∨ (trackish = st.best_score ∧ st.best_len < lst.length) then
      ⟨lst, trackish, lst.length⟩
    else st

theorem considerList_eq_considerListN : considerList = considerListN := by
  funext st lst
  unfold considerList considerListN
  by_cases h1 : lst.length < 20
  · simp [h1]
  · simp only [if_neg h1]
    by_cases h2 : countTrackish lst < 20
    · simp [h2]
    · simp only [if_neg h2]
      set m := max lst.length 1 with hmdef
      set t := countTrackish lst with htdef
      have hm : (0 : ℚ) < (m : ℚ) := by
        have h1m : 1 ≤ m := le_max_right _ _
        exact_mod_cast lt_of_lt_of_le Nat.zero_lt_one h1m
      have hiff : ((t : ℚ) / (m : ℚ) < 0.50) ↔ 2 * t < m := by
        rw [div_lt_iff₀ hm, show (0.50 : ℚ) = 1 / 2 by norm_num]
        constructor
        · intro h
          have h2 : ((2 * t : ℕ) : ℚ) < (m : ℚ) := by
            push_cast
            linarith
          exact_mod_cast h2
        · intro h
          have h2 : ((2 * t : ℕ) : ℚ) < ((m : ℕ) : ℚ) := by exact_mod_cast h
          push_cast at h2
          linarith
      by_cases h3 : 2 * t < m
      · rw [if_pos (hiff.mpr h3), if_pos h3]
      · rw [if_neg (fun hh => h3 (hiff.mp hh)), if_neg h3]

/-- Scan all arrays below one search root. -/
def scanRoot (st : SelState) (root : JsonVal) : SelState :=
  (walkLists root).foldl considerList st

/-- Scan the search roots in order, stopping once the best candidate has
at least 50 item-like elements. -/
def selectLoop : List JsonVal → SelState → SelState
  | [], st => st
  | root :: rest, st =>
    let st2 := scanRoot st root
    if 50 ≤ st2.best_score then st2 else selectLoop rest st2

/-- The arrays actually scanned by `selectLoop` (accounting for the
between-roots early stop). -/
def scannedLists : List JsonVal → SelState → List (List JsonVal)
  | [], _ => []
  | root :: rest, st =>
    let st2 := scanRoot st root
    walkLists root ++ (if 50 ≤ st2.best_score then [] else scannedLists rest st2)

/-- Emission loop of `_parse_chart_from_next_data_order`: walk the winning
array in order, skip non-track-like or identity-less elements, dedupe by
identity keeping first occurrence, rank by output position, stop at the
ceiling. -/
def emitLoop (items : List JsonVal) (seen : List String) (out : List Entry)
    (limit : ℕ) : List Entry :=
  match items with
  | [] => out
  | item :: rest =>
    match item with
    | .obj fs =>
      if isTrackLikeFields fs then
        match extractTrackHref fs with
        | Option.none => emitLoop rest seen out limit
        | some href =>
          let track_id := match trackIdRe href with
            | some tid => tid
            | Option.none => match lookupField fs "id" with
              | some idv => (jsonIdStr idv).getD ""
              | Option.none => ""
          if track_id = "" ∨ track_id ∈ seen then emitLoop rest seen out limit
          else
            let url := (buildUrl href).getD href
            let e : Entry :=
              { track_id := track_id
                title := titleOf fs track_id
                mix_name := extractMixName fs
                artists := extractPeople ((lookupField fs "artists").getD .null)
                remixers := extractPeople ((lookupField fs "remixers").getD .null)
                url := url
                rank := (out.length + 1 : ℤ) }
            let out2 := out ++ [e]
            if limit ≤ out2.length then out2
            else emitLoop rest (seen ++ [track_id]) out2 limit
      else emitLoop rest seen out limit
    | _ => emitLoop rest seen out limit

/-- The `props.pageProps` (possibly doubly nested) search roots. -/
def searchRootsOf (nd : JsonVal) : Except Unit (List JsonVal) := do
  let props ← getAttrOrEmpty nd "props"
  let page_props0 ← getAttrOrEmpty props "pageProps"
  let page_props := match page_props0 with
    | .obj fs => match lookupField fs "pageProps" with
      | some (.obj fs2) => JsonVal.obj fs2
      | _ => JsonVal.obj fs
    | v => v
  .ok [page_props, nd]

/-- `_parse_chart_from_next_data_order(html)`, given the parsed
`__NEXT_DATA__` (`.error` models an uncaught exception on a malformed
tree, e.g. a non-dict payload). -/
def parseFromNextData (next_data : Option JsonVal) : Except Unit (List Entry) :=
  match next_data with
  | Option.none => .ok []
  | some nd =>
    if jsonFalsy nd then .ok []
    else
      match searchRootsOf nd with
      | .error e => .error e
      | .ok roots =>
        let st := selectLoop roots ⟨[], 0, 0⟩
        if st.best_list.isEmpty then .ok []
        else .ok (emitLoop st.best_list [] [] 100)

/-- A DOM node carrying `data-ec-position` / `data-ec-name` attributes.
`link` is the href of its first nested track link (`a[href*='/track/']`),
`linkTitle` the resolved `_extract_title_from_link` text of that link. -/
structure AnalyticsNode where
  posText : String
  nameText : String
  link : Option String
  linkTitle : String
deriving DecidableEq

/-- Per-node step of `_parse_chart_from_analytics_dom`. -/
def parseAnalyticsNode (node : AnalyticsNode) : Option Entry :=
  match node.link with
  | Option.none => Option.none
  | some href =>
    match trackIdRe href with
    | Option.none => Option.none
    | some tid =>
      match parseIntPy (strTrim node.posText) with
      | Option.none => Option.none
      | some rank =>
        match buildUrl href with
        | Option.none => Option.none
        | some url =>
          let title := if strTrim node.nameText ≠ "" then strTrim node.nameText
            else if node.linkTitle ≠ "" then node.linkTitle
            else "track-" ++ tid
          some { track_id := tid, title := title, mix_name := Option.none,
                 artists := [], remixers := [], url := url, rank := rank }

instance decEntryRankLe : DecidableRel (fun (a b : Entry) => a.rank ≤ b.rank) :=
  fun a b => Int.decLe a.rank b.rank

/-- `_parse_chart_from_analytics_dom`: parse each annotated node, then
sort by explicit position ascending. -/
def parseChartFromAnalyticsDom (nodes : List AnalyticsNode) : List Entry :=
  let entries := nodes.filterMap parseAnalyticsNode
  if entries.isEmpty then entries
  else List.insertionSort (fun a b => a.rank ≤ b.rank) entries

/-- A track link in document order within the main content region. -/
structure DomLink where
  href : String
  linkTitle : String
deriving DecidableEq

/-- Loop of `_parse_chart_from_dom_order`: dedupe by extracted identity,
rank by first-seen order, stop at the ceiling. -/
def domLoop (links : List DomLink) (seen : List String) (out : List Entry)
    (limit : ℕ) : List Entry :=
  match links with
  | [] => out
  | l :: rest =>
    match trackIdRe l.href with
    | Option.none => domLoop rest seen out limit
    | some tid =>
      if tid ∈ seen then domLoop rest seen out limit
      else
        match buildUrl l.href with
        | Option.none => domLoop rest (seen ++ [tid]) out limit
        | some url =>
          let title := if l.linkTitle ≠ "" then l.linkTitle else "track-" ++ tid
          let e : Entry :=
            { track_id := tid, title := title, mix_name := Option.none,
              artists := [], remixers := [], url := url,
              rank := (out.length + 1 : ℤ) }
          let out2 := out ++ [e]
          if limit ≤ out2.length then out2
          else domLoop rest (seen ++ [tid]) out2 limit

def parseChartFromDomOrder (links : List DomLink) (limit : ℕ) : List Entry :=
  domLoop links [] [] limit

/-- An HTML chart payload, abstracted to what `parse_chart` inspects: the
raw text, the parsed `__NEXT_DATA__` JSON (if present and decodable), the
analytics-annotated nodes, and the track links in document order. -/
structure Payload where
  html : String
  nextData : Option JsonVal
  analyticsNodes : List AnalyticsNode
  domLinks : List DomLink

/-- `"hype=true" in html`. -/
def hasHypeMarker (p : Payload) : Bool :=
  containsSub p.html.toList "hype=true".toList

/-- The strategy cascade of `parse_chart` after the hype pre-check:
structured payload, then attribute-annotated DOM, then link-order DOM;
`.error` models the raised exception when nothing matches (or when the
structured stage itself raises). -/
def cascade (p : Payload) : Except Unit (List Entry) :=
  match parseFromNextData p.nextData with
  | .error e => .error e
  | .ok e1 =>
    if e1.isEmpty then
      let e2 := parseChartFromAnalyticsDom p.analyticsNodes
      if e2.isEmpty then
        let e3 := parseChartFromDomOrder p.domLinks 100
        if e3.isEmpty then .error () else .ok e3
      else .ok e2
    else .ok e1

/-- `parse_chart(html)`. -/
def parseChart (p : Payload) : Except Unit (List Entry) :=
  if hasHypeMarker p then
    match p.nextData with
    | some nd =>
      if jsonTruthy nd then
        if checkGenreSupportsHype nd = some false then .ok []
        else cascade p
      else cascade p
    | Option.none => cascade p
  else cascade p

/-- The sanctioned-empty condition as the code implements it: the literal
"hype=true" must occur in the HTML, and the parsed, truthy `__NEXT_DATA__`
must flag `is_included_in_hype` as false. -/
def codeSanctioned (p : Payload) : Prop :=
  hasHypeMarker p = true
    ∧ ∃ nd, p.nextData = some nd
      ∧ jsonTruthy nd = true
      ∧ checkGenreSupportsHype nd = some false

theorem cascade_error_iff (p : Payload) :
    (∃ e, cascade p = .error e) ↔
      ((∃ e, parseFromNextData p.nextData = .error e)
        ∨ (parseFromNextData p.nextData = .ok []
          ∧ parseChartFromAnalyticsDom p.analyticsNodes = []
          ∧ parseChartFromDomOrder p.domLinks 100 = [])) := by
  unfold cascade
  cases h : parseFromNextData p.nextData with
  | error e => simp [h]
  | ok e1 =>
    by_cases h1 : e1.isEmpty
    · have he1 : e1 = [] := List.isEmpty_iff.mp h1
      subst he1
      simp only [h, List.isEmpty_nil, if_true]
      by_cases h2 : (parseChartFromAnalyticsDom p.analyticsNodes).isEmpty
      · have he2 := List.isEmpty_iff.mp h2
        simp only [h2, if_true]
        by_cases h3 : (parseChartFromDomOrder p.domLinks 100).isEmpty
        · have he3 := List.isEmpty_iff.mp h3
          simp [h3, he2, he3]
        · have hne3 : parseChartFromDomOrder p.domLinks 100 ≠ [] := by
            intro hh
            exact h3 (by simp [hh])
          simp [h3, hne3]
      · have hne2 : parseChartFromAnalyticsDom p.analyticsNodes ≠ [] := by
          intro hh
          exact h2 (by simp [hh])
        simp [h2, hne2]
    · have hne1 : e1 ≠ [] := by
        intro hh
        exact h1 (by simp [hh])
      simp [h1, hne1]

/-- When the payload is not a code-sanctioned empty case, `parse_chart`
falls through to the strategy cascade. -/
theorem parseChart_eq_cascade (p : Payload) (hns : ¬ codeSanctioned p) :
    parseChart p = cascade p := by
  unfold parseChart
  by_cases hm : hasHypeMarker p
  · rw [if_pos hm]
    cases hnd : p.nextData with
    | none => rfl
    | some nd =>
      show (if jsonTruthy nd = true then
          if checkGenreSupportsHype nd = some false then Except.ok [] else cascade p
        else cascade p) = cascade p
      by_cases htr : jsonTruthy nd
      · rw [if_pos htr]
        by_cases hchk : checkGenreSupportsHype nd = some false
        · exact absurd ⟨hm, nd, hnd, htr, hchk⟩ hns
        · rw [if_neg hchk]
      · rw [if_neg htr]
  · rw [if_neg hm]

/-- Claim C3 (amended): `parse_chart` returns an empty list when the HTML
carries the "hype=true" marker and its truthy embedded structured data
explicitly flags the category as not supporting hype; it raises an error
iff the payload is not such a case and either the structured stage raises
on a malformed tree or all three strategies yield nothing. -/
theorem c3_parse_chart_cascade (p : Payload) :
    (codeSanctioned p → parseChart p = .ok [])
    ∧ ((∃ e, parseChart p = .error e) ↔
        (¬ codeSanctioned p
          ∧ ((∃ e, parseFromNextData p.nextData = .error e)
            ∨ (parseFromNextData p.nextData = .ok []
              ∧ parseChartFromAnalyticsDom p.analyticsNodes = []
              ∧ parseChartFromDomOrder p.domLinks 100 = [])))) := by
  constructor
  · rintro ⟨hm, nd, hnd, htr, hchk⟩
    unfold parseChart
    rw [if_pos hm, hnd]
    show (if jsonTruthy nd = true then
        if checkGenreSupportsHype nd = some false then Except.ok [] else cascade p
      else cascade p) = Except.ok []
    rw [if_pos htr, if_pos hchk]
  · by_cases hns : codeSanctioned p
    · obtain ⟨hm, nd, hnd, htr, hchk⟩ := hns
      have hok : parseChart p = .ok [] := by
        unfold parseChart
        rw [if_pos hm, hnd]
        show (if jsonTruthy nd = true then
            if checkGenreSupportsHype nd = some false then Except.ok [] else cascade p
          else cascade p) = Except.ok []
        rw [if_pos htr, if_pos hchk]
      constructor
      · rintro ⟨e, he⟩
        rw [hok] at he
        cases he
      · rintro ⟨hns2, _⟩
        exact absurd ⟨hm, nd, hnd, htr, hchk⟩ hns2
    · rw [parseChart_eq_cascade p hns, cascade_error_iff]
      constructor
      · intro h
        exact ⟨hns, h⟩
      · rintro ⟨_, h⟩
        exact h

/-- The embedded tree of the counterexample payload: the structured data
flags the category as unsupported for hype. -/
def c3FlagTree : JsonVal :=
  .obj [("props", .obj [("pageProps", .obj [("dehydratedState",
    .obj [("queries", .arr [.obj [("state", .obj [("data",
      .obj [("is_included_in_hype", .bool false)])])]])])])])]

/-- The counterexample payload: the flag is present in the embedded data,
but the HTML does not contain the literal "hype=true", so `parse_chart`
raises instead of returning the empty list the claim promises. -/
def c3Payload : Payload :=
  { html := ""
    nextData := some c3FlagTree
    analyticsNodes := []
    domLinks := [] }

theorem c3_counterexample :
    (∃ nd, c3Payload.nextData = some nd ∧ checkGenreSupportsHype nd = some false)
    ∧ parseChart c3Payload = .error () := by
  refine ⟨⟨c3FlagTree, rfl, ?_⟩, ?_⟩
  · rfl
  · rfl

/-- The candidacy filter as the code implements it (length at least 20,
capped item-like count at least 20, capped density at least one half). -/
def codeCandidate (lst : List JsonVal) : Prop :=
  20 ≤ lst.length ∧ 20 ≤ countTrackish lst
    ∧ max lst.length 1 ≤ 2 * countTrackish lst

instance decCodeCandidate (lst : List JsonVal) : Decidable (codeCandidate lst) := by
  unfold codeCandidate
  infer_instance

theorem considerList_step (st : SelState) (lst : List JsonVal) :
    (considerList st lst = st
      ∧ (codeCandidate lst →
          (countTrackish lst < st.best_score
            ∨ (countTrackish lst = st.best_score ∧ lst.length ≤ st.best_len))))
    ∨ (codeCandidate lst
        ∧ considerList st lst = ⟨lst, countTrackish lst, lst.length⟩
        ∧ (st.best_score < countTrackish lst
          ∨ (st.best_score = countTrackish lst ∧ st.best_len ≤ lst.length))) := by
  rw [considerList_eq_considerListN]
  unfold considerListN codeCandidate
  by_cases h1 : lst.length < 20
  · rw [if_pos h1]
    exact Or.inl ⟨rfl, fun hc => absurd hc.1 (by omega)⟩
  · rw [if_neg h1]
    by_cases h2 : countTrackish lst < 20
    · rw [if_pos h2]
      exact Or.inl ⟨rfl, fun hc => absurd hc.2.1 (by omega)⟩
    · rw [if_neg h2]
      by_cases h3 : 2 * countTrackish lst < max lst.length 1
      · rw [if_pos h3]
        exact Or.inl ⟨rfl, fun hc => absurd hc.2.2 (by omega)⟩
      · rw [if_neg h3]
        by_cases h4 : st.best_score < countTrackish lst
            ∨ (countTrackish lst = st.best_score ∧ st.best_len < lst.length)
        · rw [if_pos h4]
          refine Or.inr ⟨⟨by omega, by omega, by omega⟩, rfl, ?_⟩
          rcases h4 with h4a | ⟨h4b, h4c⟩
          · exact Or.inl h4a
          · exact Or.inr ⟨h4b.symm, le_of_lt h4c⟩
        · rw [if_neg h4]
          push_neg at h4
          refine Or.inl ⟨rfl, fun _ => ?_⟩
          rcases Nat.lt_or_ge (countTrackish lst) st.best_score with hlt | hge
          · exact Or.inl hlt
          · have heq : countTrackish lst = st.best_score :=
              le_antisymm h4.1 hge
            exact Or.inr ⟨heq, h4.2 heq⟩

theorem foldl_considerList_spec (lists : List (List JsonVal)) :
    ∀ st : SelState,
      ((lists.foldl considerList st = st
          ∨ ∃ lst ∈ lists, codeCandidate lst
            ∧ lists.foldl considerList st = ⟨lst, countTrackish lst, lst.length⟩)
        ∧ (st.best_score < (lists.foldl considerList st).best_score
          ∨ (st.best_score = (lists.foldl considerList st).best_score
            ∧ st.best_len ≤ (lists.foldl considerList st).best_len))
        ∧ ∀ lst ∈ lists, codeCandidate lst →
          (countTrackish lst < (lists.foldl considerList st).best_score
            ∨ (countTrackish lst = (lists.foldl considerList st).best_score
              ∧ lst.length ≤ (lists.foldl considerList st).best_len))) := by
  induction lists with
  | nil =>
    intro st
    refine ⟨Or.inl rfl, Or.inr ⟨rfl, le_rfl⟩, ?_⟩
    intro lst h
    simp at h
  | cons lst0 rest ih =>
    intro st
    rw [List.foldl_cons]
    obtain ⟨ih1, ih2, ih3⟩ := ih (considerList st lst0)
    rcases considerList_step st lst0 with ⟨heq, hbeats⟩ | ⟨hcand, hmk, hdom⟩
    · rw [heq] at ih1 ih2 ih3 ⊢
      refine ⟨?_, ih2, ?_⟩
      · rcases ih1 with h | ⟨l2, hl2, hc2, hv2⟩
        · exact Or.inl h
        · exact Or.inr ⟨l2, List.mem_cons_of_mem _ hl2, hc2, hv2⟩
      · intro lst h hc
        rcases List.mem_cons.mp h with rfl | hmem
        · have hb := hbeats hc
          rcases ih2 with hi | ⟨hi1, hi2⟩ <;> omega
        · exact ih3 lst hmem hc
    · rw [hmk] at ih1 ih2 ih3 ⊢
      refine ⟨?_, ?_, ?_⟩
      · rcases ih1 with h | ⟨l2, hl2, hc2, hv2⟩
        · exact Or.inr ⟨lst0, List.mem_cons_self _ _, hcand, h⟩
        · exact Or.inr ⟨l2, List.mem_cons_of_mem _ hl2, hc2, hv2⟩
      · simp only at ih2
        rcases hdom with hd | ⟨hd1, hd2⟩ <;> rcases ih2 with hi | ⟨hi1, hi2⟩ <;>
          [exact Or.inl (by omega); exact Or.inl (by omega);
           exact Or.inl (by omega); exact Or.inr (by omega)]
      · intro lst h hc
        rcases List.mem_cons.mp h with rfl | hmem
        · simp only at ih2 ⊢
          rcases ih2 with hi | ⟨hi1, hi2⟩
          · exact Or.inl (by omega)
          · exact Or.inr (by omega)
        · exact ih3 lst hmem hc

theorem selectLoop_spec (roots : List JsonVal) :
    ∀ st : SelState,
      ((selectLoop roots st = st
          ∨ ∃ lst ∈ scannedLists roots st, codeCandidate lst
            ∧ selectLoop roots st = ⟨lst, countTrackish lst, lst.length⟩)
        ∧ (st.best_score < (selectLoop roots st).best_score
          ∨ (st.best_score = (selectLoop roots st).best_score
            ∧ st.best_len ≤ (selectLoop roots st).best_len))
        ∧ ∀ lst ∈ scannedLists roots st, codeCandidate lst →
          (countTrackish lst < (selectLoop roots st).best_score
            ∨ (countTrackish lst = (selectLoop roots st).best_score
              ∧ lst.length ≤ (selectLoop roots st).best_len))) := by
  induction roots with
  | nil =>
    intro st
    refine ⟨Or.inl rfl, Or.inr ⟨rfl, le_rfl⟩, ?_⟩
    intro lst h
    simp [scannedLists] at h
  | cons root rest ih =>
    intro st
    obtain ⟨f1, f2, f3⟩ := foldl_considerList_spec (walkLists root) st
    have hscan : scanRoot st root = (walkLists root).foldl considerList st := rfl
    rw [show selectLoop (root :: rest) st =
        (if 50 ≤ (scanRoot st root).best_score then scanRoot st root
         else selectLoop rest (scanRoot st root)) from rfl]
    rw [show scannedLists (root :: rest) st =
        walkLists root ++ (if 50 ≤ (scanRoot st root).best_score then []
          else scannedLists rest (scanRoot st root)) from rfl]
    rw [hscan]
    by_cases hb : 50 ≤ ((walkLists root).foldl considerList st).best_score
    · rw [if_pos hb, if_pos hb]
      refine ⟨?_, f2, ?_⟩
      · rcases f1 with h | ⟨l2, hl2, hc2, hv2⟩
        · exact Or.inl h
        · exact Or.inr ⟨l2, by simp [hl2], hc2, hv2⟩
      · intro lst h hc
        rw [List.append_nil] at h
        exact f3 lst h hc
    · rw [if_neg hb, if_neg hb]
      obtain ⟨r1, r2, r3⟩ := ih ((walkLists root).foldl considerList st)
      refine ⟨?_, ?_, ?_⟩
      · rcases r1 with h | ⟨l2, hl2, hc2, hv2⟩
        · rw [h]
          rcases f1 with h2 | ⟨l3, hl3, hc3, hv3⟩
          · exact Or.inl h2
          · exact Or.inr ⟨l3, by simp [hl3], hc3, hv3⟩
        · exact Or.inr ⟨l2, by simp [hl2], hc2, hv2⟩
      · rcases f2 with hf | ⟨hf1, hf2⟩ <;> rcases r2 with hr | ⟨hr1, hr2⟩ <;>
          [exact Or.inl (by omega); exact Or.inl (by omega);
           exact Or.inl (by omega); exact Or.inr (by omega)]
      · intro lst h hc
        rcases List.mem_append.mp h with hmem | hmem
        · have hb2 := f3 lst hmem hc
          rcases hb2 with hx | ⟨hx1, hx2⟩ <;> rcases r2 with hr | ⟨hr1, hr2⟩
          · exact Or.inl (by omega)
          · exact Or.inl (by omega)
          · exact Or.inl (by omega)
          · exact Or.inr (by omega)
        · exact r3 lst hmem hc

/-- Claim C4 (amended): the scan considers only arrays of length at least
20 whose item-like count over the first 250 elements is at least 20 and at
least half the array length; among the arrays scanned before the
between-roots early stop (best score at least 50), the selected array is
the one with the highest capped item-like count, ties broken by longer
length; if no array qualifies, nothing is selected. -/
theorem c4_candidate_selection (roots : List JsonVal) :
    ((∃ lst ∈ scannedLists roots ⟨[], 0, 0⟩, codeCandidate lst) →
      ∃ lst ∈ scannedLists roots ⟨[], 0, 0⟩, codeCandidate lst
        ∧ selectLoop roots ⟨[], 0, 0⟩ = ⟨lst, countTrackish lst, lst.length⟩
        ∧ ∀ lst2 ∈ scannedLists roots ⟨[], 0, 0⟩, codeCandidate lst2 →
          (countTrackish lst2 < countTrackish lst
            ∨ (countTrackish lst2 = countTrackish lst
              ∧ lst2.length ≤ lst.length)))
    ∧ ((∀ lst ∈ scannedLists roots ⟨[], 0, 0⟩, ¬ codeCandidate lst) →
        selectLoop roots ⟨[], 0, 0⟩ = ⟨[], 0, 0⟩)
    ∧ (∀ (st0 : SelState) (lst : List JsonVal), considerList st0 lst =
        if 20 ≤ lst.length ∧ 20 ≤ countTrackish lst
            ∧ max lst.length 1 ≤ 2 * countTrackish lst then
          (if st0.best_score < countTrackish lst
              ∨ (countTrackish lst = st0.best_score
                ∧ st0.best_len < lst.length) then
            ⟨lst, countTrackish lst, lst.length⟩
          else st0)
        else st0) := by
  obtain ⟨s1, s2, s3⟩ := selectLoop_spec roots ⟨[], 0, 0⟩
  refine ⟨?_, ?_, ?_⟩
  · rintro ⟨lst0, hmem0, hcand0⟩
    have hpos := s3 lst0 hmem0 hcand0
    have hscore : 20 ≤ (selectLoop roots ⟨[], 0, 0⟩).best_score := by
      have h20 := hcand0.2.1
      omega
    rcases s1 with hinit | ⟨lst, hmem, hcand, hval⟩
    · rw [hinit] at hscore
      simp at hscore
    · refine ⟨lst, hmem, hcand, hval, ?_⟩
      intro lst2 hmem2 hcand2
      have := s3 lst2 hmem2 hcand2
      rw [hval] at this
      exact this
  · intro hnone
    rcases s1 with hinit | ⟨lst, hmem, hcand, _⟩
    · exact hinit
    · exact absurd hcand (hnone lst hmem)
  · intro st0 lst
    rw [considerList_eq_considerListN]
    unfold considerListN
    by_cases h1 : lst.length < 20
    · rw [if_pos h1, if_neg (by omega : ¬ (20 ≤ lst.length
        ∧ 20 ≤ countTrackish lst ∧ max lst.length 1 ≤ 2 * countTrackish lst))]
    · rw [if_neg h1]
      by_cases h2 : countTrackish lst < 20
      · rw [if_pos h2, if_neg (by omega : ¬ (20 ≤ lst.length
          ∧ 20 ≤ countTrackish lst ∧ max lst.length 1 ≤ 2 * countTrackish lst))]
      · rw [if_neg h2]
        by_cases h3 : 2 * countTrackish lst < max lst.length 1
        · rw [if_pos h3, if_neg (by omega : ¬ (20 ≤ lst.length
            ∧ 20 ≤ countTrackish lst ∧ max lst.length 1 ≤ 2 * countTrackish lst))]
        · rw [if_neg h3, if_pos (by omega : (20 ≤ lst.length
            ∧ 20 ≤ countTrackish lst ∧ max lst.length 1 ≤ 2 * countTrackish lst))]

/-- An item-like dict (id, non-empty name, and two supporting keys). -/
def c4Item : JsonVal :=
  .obj [("id", .num 1), ("name", .str "Track"), ("slug", .str "s"),
    ("bpm", .num 120)]

/-- A 20-element array with exactly 10 item-like elements: its true
item-like density is exactly 0.50, so the claim as stated makes it a
candidate, but the code rejects it (item-like count 10 < 20). -/
def c4Array : List JsonVal :=
  List.replicate 10 c4Item ++ List.replicate 10 (.num 0)

def c4PageProps : JsonVal := .obj [("items", .arr c4Array)]

def c4NextData : JsonVal := .obj [("props", .obj [("pageProps", c4PageProps)])]

theorem c4_counterexample :
    20 ≤ c4Array.length
    ∧ (((c4Array.filter (fun i => isTrackLikeJson i)).length : ℚ) /
        (c4Array.length : ℚ)) ≥ 0.50
    ∧ c4Array ∈ walkLists c4PageProps
    ∧ (selectLoop [c4PageProps, c4NextData] ⟨[], 0, 0⟩).best_list = []
    ∧ parseFromNextData (some c4NextData) = .ok [] := by
  refine ⟨by decide, ?_, ?_, ?_, ?_⟩
  · rw [show (c4Array.filter (fun i => isTrackLikeJson i)).length = 10 from rfl,
      show c4Array.length = 20 from rfl]
    norm_num
  · rw [show walkLists c4PageProps = [c4Array] from rfl]
    exact List.mem_cons_self _ _
  · rfl
  · rfl

theorem c4_witness :
    (∀ lst ∈ scannedLists [c4PageProps, c4NextData] ⟨[], 0, 0⟩,
      ¬ codeCandidate lst)
    ∧ selectLoop [c4PageProps, c4NextData] ⟨[], 0, 0⟩ = ⟨[], 0, 0⟩ :=
  ⟨by decide, (c4_candidate_selection [c4PageProps, c4NextData]).2.1 (by decide)⟩

/-- The identity the emission loop resolves for an element: the track-id
regex applied to the extracted href. -/
def resolvedTrackId : JsonVal → Option String
  | .obj fs => (extractTrackHref fs).bind trackIdRe
  | _ => Option.none

/-- The entry the emission loop builds for a resolved element. -/
def mkTrackEntry (fs : List (String × JsonVal)) (href t : String) (rank : ℤ) :
    Entry :=
  { track_id := t
    title := titleOf fs t
    mix_name := extractMixName fs
    artists := extractPeople ((lookupField fs "artists").getD .null)
    remixers := extractPeople ((lookupField fs "remixers").getD .null)
    url := (buildUrl href).getD href
    rank := rank }

/-- The entries emitted from an element list starting at output position
`n`, when every element resolves. -/
def emittedFrom : List JsonVal → ℕ → List Entry
  | [], _ => []
  | item :: rest, n =>
    match item with
    | .obj fs =>
      match extractTrackHref fs with
      | some href =>
        match trackIdRe href with
        | some t => mkTrackEntry fs href t ((n : ℤ) + 1) :: emittedFrom rest (n + 1)
        | Option.none => emittedFrom rest n
      | Option.none => emittedFrom rest n
    | _ => emittedFrom rest n

/-- Emission-loop invariant: when every element is item-like with a fresh,
non-empty resolvable identity, no element is skipped and the loop appends
exactly the sequentially ranked entries. -/
theorem emitLoop_spec (items : List JsonVal) :
    ∀ (seen : List String) (out : List Entry) (limit : ℕ),
      (∀ item ∈ items, isTrackLikeJson item = true
        ∧ ∃ t, resolvedTrackId item = some t ∧ t ≠ "" ∧ t ∉ seen) →
      (items.map resolvedTrackId).Nodup →
      out.length + items.length ≤ limit →
      emitLoop items seen out limit = out ++ emittedFrom items out.length := by
  induction items with
  | nil =>
    intro seen out limit _ _ _
    simp [emitLoop, emittedFrom]
  | cons item rest ih =>
    intro seen out limit hall hnodup hlim
    obtain ⟨htl, t, hrid, htne, htns⟩ := hall item (List.mem_cons_self _ _)
    obtain ⟨fs, rfl⟩ : ∃ fs, item = .obj fs := by
      cases item <;> first
        | exact ⟨_, rfl⟩
        | simp [isTrackLikeJson] at htl
    have htl2 : isTrackLikeFields fs = true := htl
    obtain ⟨href, hhref, htid⟩ :
        ∃ href, extractTrackHref fs = some href ∧ trackIdRe href = some t := by
      have h := hrid
      unfold resolvedTrackId at h
      exact Option.bind_eq_some.mp h
    have hskip : ¬ (t = "" ∨ t ∈ seen) := by
      rintro (h | h)
      · exact htne h
      · exact htns h
    rw [show emitLoop (JsonVal.obj fs :: rest) seen out limit =
        (if isTrackLikeFields fs then
          match extractTrackHref fs with
          | Option.none => emitLoop rest seen out limit
          | some href =>
            let track_id := match trackIdRe href with
              | some tid => tid
              | Option.none => match lookupField fs "id" with
                | some idv => (jsonIdStr idv).getD ""
                | Option.none => ""
            if track_id = "" ∨ track_id ∈ seen then emitLoop rest seen out limit
            else
              let url := (buildUrl href).getD href
              let e : Entry :=
                { track_id := track_id
                  title := titleOf fs track_id
                  mix_name := extractMixName fs
                  artists := extractPeople ((lookupField fs "artists").getD .null)
                  remixers := extractPeople ((lookupField fs "remixers").getD .null)
                  url := url
                  rank := (out.length + 1 : ℤ) }
              let out2 := out ++ [e]
              if limit ≤ out2.length then out2
              else emitLoop rest (seen ++ [track_id]) out2 limit
        else emitLoop rest seen out limit) from rfl]
    rw [htl2, if_pos rfl, hhref]
    simp only [htid]
    rw [if_neg hskip]
    simp only [List.length_append, List.length_cons, List.length_nil]
    have hemit : emittedFrom (JsonVal.obj fs :: rest) out.length =
        mkTrackEntry fs href t ((out.length : ℤ) + 1)
          :: emittedFrom rest (out.length + 1) := by
      rw [show emittedFrom (JsonVal.obj fs :: rest) out.length =
          (match extractTrackHref fs with
            | some href =>
              match trackIdRe href with
              | some t => mkTrackEntry fs href t ((out.length : ℤ) + 1)
                  :: emittedFrom rest (out.length + 1)
              | Option.none => emittedFrom rest out.length
            | Option.none => emittedFrom rest out.length) from rfl]
      rw [hhref]
      simp only [htid]
    rw [hemit]
    cases rest with
    | nil =>
      by_cases hl2 : limit ≤ out.length + 1
      · rw [if_pos hl2]
        simp [emittedFrom, mkTrackEntry]
      · rw [if_neg hl2]
        exact (show emitLoop [] (seen ++ [t])
            (out ++ [mkTrackEntry fs href t ((out.length : ℤ) + 1)]) limit
            = out ++ mkTrackEntry fs href t ((out.length : ℤ) + 1)
              :: emittedFrom [] (out.length + 1) from by
          simp [emitLoop, emittedFrom])
    | cons r2 rest2 =>
      have hlen2 : ¬ (limit ≤ out.length + 1) := by
        simp only [List.length_cons] at hlim
        omega
      rw [if_neg hlen2]
      have hnd2 := (List.nodup_cons.mp hnodup)
      have hA : ∀ item2 ∈ (r2 :: rest2), isTrackLikeJson item2 = true
          ∧ ∃ t3, resolvedTrackId item2 = some t3 ∧ t3 ≠ "" ∧ t3 ∉ (seen ++ [t]) := by
        intro item2 hmem2
        obtain ⟨htl3, t3, hrid3, htne3, htns3⟩ :=
          hall item2 (List.mem_cons_of_mem _ hmem2)
        refine ⟨htl3, t3, hrid3, htne3, ?_⟩
        simp only [List.mem_append, List.mem_singleton]
        rintro (h | h)
        · exact htns3 h
        · subst h
          apply hnd2.1
          rw [hrid, ← hrid3]
          exact List.mem_map_of_mem resolvedTrackId hmem2
      have hC : (out ++ [mkTrackEntry fs href t ((out.length : ℤ) + 1)]).length
          + (r2 :: rest2).length ≤ limit := by
        simp only [List.length_append, List.length_cons, List.length_nil] at hlim ⊢
        omega
      exact (show emitLoop (r2 :: rest2) (seen ++ [t])
          (out ++ [mkTrackEntry fs href t ((out.length : ℤ) + 1)]) limit
          = out ++ mkTrackEntry fs href t ((out.length : ℤ) + 1)
            :: emittedFrom (r2 :: rest2) (out.length + 1) from by
        rw [ih (seen ++ [t]) (out ++ [mkTrackEntry fs href t ((out.length : ℤ) + 1)])
          limit hA hnd2.2 hC]
        simp [List.append_assoc, List.length_append])

theorem emittedFrom_length (items : List JsonVal) :
    ∀ n : ℕ,
      (∀ item ∈ items, (resolvedTrackId item).isSome = true) →
      (emittedFrom items n).length = items.length := by
  induction items with
  | nil => intro n _; rfl
  | cons item rest ih =>
    intro n hres
    have h1 := hres item (List.mem_cons_self _ _)
    obtain ⟨t, ht⟩ := Option.isSome_iff_exists.mp h1
    obtain ⟨fs, rfl⟩ : ∃ fs, item = .obj fs := by
      cases item <;> first
        | exact ⟨_, rfl⟩
        | simp [resolvedTrackId] at ht
    obtain ⟨href, hhref, htid⟩ :
        ∃ href, extractTrackHref fs = some href ∧ trackIdRe href = some t := by
      have h := ht
      unfold resolvedTrackId at h
      exact Option.bind_eq_some.mp h
    rw [show emittedFrom (JsonVal.obj fs :: rest) n =
        (match extractTrackHref fs with
          | some href =>
            match trackIdRe href with
            | some t => mkTrackEntry fs href t ((n : ℤ) + 1)
                :: emittedFrom rest (n + 1)
            | Option.none => emittedFrom rest n
          | Option.none => emittedFrom rest n) from rfl]
    rw [hhref]
    simp only [htid]
    simp only [List.length_cons]
    rw [ih (n + 1) (fun i hi => hres i (List.mem_cons_of_mem _ hi))]

theorem emittedFrom_get (items : List JsonVal) :
    ∀ (n : ℕ),
      (∀ item ∈ items, (resolvedTrackId item).isSome = true) →
      ∀ (i : ℕ) (h1 : i < (emittedFrom items n).length) (h2 : i < items.length),
        ((emittedFrom items n).get ⟨i, h1⟩).rank = (n : ℤ) + i + 1
        ∧ some ((emittedFrom items n).get ⟨i, h1⟩).track_id
            = resolvedTrackId (items.get ⟨i, h2⟩) := by
  induction items with
  | nil =>
    intro n _ i h1 h2
    simp at h2
  | cons item rest ih =>
    intro n hres i h1 h2
    have hh := hres item (List.mem_cons_self _ _)
    obtain ⟨t, ht⟩ := Option.isSome_iff_exists.mp hh
    obtain ⟨fs, rfl⟩ : ∃ fs, item = .obj fs := by
      cases item <;> first
        | exact ⟨_, rfl⟩
        | simp [resolvedTrackId] at ht
    obtain ⟨href, hhref, htid⟩ :
        ∃ href, extractTrackHref fs = some href ∧ trackIdRe href = some t := by
      have h := ht
      unfold resolvedTrackId at h
      exact Option.bind_eq_some.mp h
    have hemit : emittedFrom (JsonVal.obj fs :: rest) n =
        mkTrackEntry fs href t ((n : ℤ) + 1) :: emittedFrom rest (n + 1) := by
      rw [show emittedFrom (JsonVal.obj fs :: rest) n =
          (match extractTrackHref fs with
            | some href =>
              match trackIdRe href with
              | some t => mkTrackEntry fs href t ((n : ℤ) + 1)
                  :: emittedFrom rest (n + 1)
              | Option.none => emittedFrom rest n
            | Option.none => emittedFrom rest n) from rfl]
      rw [hhref]
      simp only [htid]
    cases i with
    | zero =>
      refine ⟨?_, ?_⟩
      · rw [List.get_of_eq hemit ⟨0, h1⟩]
        simp [mkTrackEntry]
      · rw [List.get_of_eq hemit ⟨0, h1⟩]
        rw [show ((mkTrackEntry fs href t ((n : ℤ) + 1)
            :: emittedFrom rest (n + 1)).get ⟨0, hemit ▸ h1⟩).track_id = t from rfl]
        exact ht.symm
    | succ j =>
      have h1b : j < (emittedFrom rest (n + 1)).length := by
        rw [hemit] at h1
        simpa using h1
      have h2b : j < rest.length := by simpa using h2
      have := ih (n + 1) (fun x hx => hres x (List.mem_cons_of_mem _ hx)) j h1b h2b
      have hget : ((emittedFrom (JsonVal.obj fs :: rest) n).get ⟨j + 1, h1⟩)
          = (emittedFrom rest (n + 1)).get ⟨j, h1b⟩ := by
        rw [List.get_of_eq hemit ⟨j + 1, h1⟩]
        rfl
      constructor
      · rw [hget, this.1]
        push_cast
        ring
      · rw [hget, this.2]
        rfl

/-- Integer-density form of `scanRoot`, for concrete evaluation. -/
def scanRootN (st : SelState) (root : JsonVal) : SelState :=
  (walkLists root).foldl considerListN st

theorem scanRoot_eq_N : scanRoot = scanRootN := by
  funext st root
  unfold scanRoot scanRootN
  rw [considerList_eq_considerListN]

/-- Integer-density form of `scannedLists`, for concrete evaluation. -/
def scannedListsN : List JsonVal → SelState → List (List JsonVal)
  | [], _ => []
  | root :: rest, st =>
    let st2 := scanRootN st root
    walkLists root ++ (if 50 ≤ st2.best_score then [] else scannedListsN rest st2)

theorem scannedLists_eq_N (roots : List JsonVal) :
    ∀ st, scannedLists roots st = scannedListsN roots st := by
  induction roots with
  | nil => intro st; rfl
  | cons root rest ih =>
    intro st
    rw [show scannedLists (root :: rest) st = walkLists root ++
        (if 50 ≤ (scanRoot st root).best_score then []
          else scannedLists rest (scanRoot st root)) from rfl]
    rw [show scannedListsN (root :: rest) st = walkLists root ++
        (if 50 ≤ (scanRootN st root).best_score then []
          else scannedListsN rest (scanRootN st root)) from rfl]
    rw [scanRoot_eq_N, ih]

/-- C5: for a payload whose structured `__NEXT_DATA__` is truthy and whose
scan encounters a single qualifying (candidate) array `A` of 60 fully
item-like elements, each carrying a distinct, non-empty resolvable track
identity, structured extraction emits exactly the 60 entries of `A` in
array order, with rank `i + 1` at position `i` and the element's resolved
identity as track id, under the emission ceiling of 100. -/
theorem c5_structured_emission (nd : JsonVal) (roots A : List JsonVal)
    (h0 : jsonFalsy nd = false)
    (h1 : searchRootsOf nd = .ok roots)
    (hmem : A ∈ scannedLists roots ⟨[], 0, 0⟩)
    (huniq : ∀ l ∈ scannedLists roots ⟨[], 0, 0⟩, codeCandidate l → l = A)
    (hlen : A.length = 60)
    (htrack : ∀ item ∈ A, isTrackLikeJson item = true)
    (hid : ∀ item ∈ A, (resolvedTrackId item).isSome = true
      ∧ resolvedTrackId item ≠ some "")
    (hnodup : (A.map resolvedTrackId).Nodup) :
    parseFromNextData (some nd) = .ok (emittedFrom A 0)
    ∧ (emittedFrom A 0).length = 60
    ∧ ∀ (i : ℕ) (hi : i < (emittedFrom A 0).length) (hi2 : i < A.length),
        ((emittedFrom A 0).get ⟨i, hi⟩).rank = (i : ℤ) + 1
        ∧ some ((emittedFrom A 0).get ⟨i, hi⟩).track_id
            = resolvedTrackId (A.get ⟨i, hi2⟩) := by
  have hres : ∀ item ∈ A, (resolvedTrackId item).isSome = true :=
    fun item h => (hid item h).1
  have hct : countTrackish A = 60 := by
    unfold countTrackish
    rw [List.take_of_length_le (by omega)]
    rw [List.filter_eq_self.mpr htrack]
    exact hlen
  have hcand : codeCandidate A := by
    unfold codeCandidate
    refine ⟨by omega, by omega, ?_⟩
    rw [hlen, hct]
    decide
  obtain ⟨p1, _, p3⟩ := selectLoop_spec roots ⟨[], 0, 0⟩
  have hdom := p3 A hmem hcand
  have hsel : selectLoop roots ⟨[], 0, 0⟩ = ⟨A, countTrackish A, A.length⟩ := by
    rcases p1 with hinit | ⟨lst, hlst, hclst, heq⟩
    · rw [hinit] at hdom
      rw [hct] at hdom
      simp at hdom
    · have hlA : lst = A := huniq lst hlst hclst
      subst hlA
      exact heq
  have hA_ne : A.isEmpty = false := by
    cases A with
    | nil => simp at hlen
    | cons a as => rfl
  have hall : ∀ item ∈ A, isTrackLikeJson item = true
      ∧ ∃ t, resolvedTrackId item = some t ∧ t ≠ "" ∧ t ∉ ([] : List String) := by
    intro item hitem
    refine ⟨htrack item hitem, ?_⟩
    obtain ⟨t, ht⟩ := Option.isSome_iff_exists.mp (hid item hitem).1
    refine ⟨t, ht, ?_, by simp⟩
    intro hteq
    rw [hteq] at ht
    exact (hid item hitem).2 ht
  have hemit : emitLoop A [] [] 100 = emittedFrom A 0 := by
    have h := emitLoop_spec A [] [] 100 hall hnodup (by rw [hlen]; decide)
    simpa using h
  have hmain : parseFromNextData (some nd) = .ok (emitLoop A [] [] 100) := by
    rw [show parseFromNextData (some nd)
        = (if jsonFalsy nd = true then .ok []
           else match searchRootsOf nd with
            | .error e => .error e
            | .ok rs =>
              let st := selectLoop rs ⟨[], 0, 0⟩
              if st.best_list.isEmpty then .ok []
              else .ok (emitLoop st.best_list [] [] 100)) from rfl]
    rw [h0]
    rw [if_neg (by simp)]
    rw [h1]
    show (if (selectLoop roots ⟨[], 0, 0⟩).best_list.isEmpty = true then Except.ok []
          else Except.ok (emitLoop (selectLoop roots ⟨[], 0, 0⟩).best_list [] [] 100))
        = Except.ok (emitLoop A [] [] 100)
    rw [hsel]
    rw [show (SelState.mk A (countTrackish A) (A.length)).best_list = A from rfl]
    rw [hA_ne]
    rw [if_neg (by simp)]
  refine ⟨by rw [hmain, hemit], ?_, ?_⟩
  · rw [emittedFrom_length A 0 hres]
    exact hlen
  · intro i hi hi2
    obtain ⟨hr, hid2⟩ := emittedFrom_get A 0 hres i hi hi2
    refine ⟨?_, hid2⟩
    rw [hr]
    simp

/-- One item-like element with id `i + 1`, two helpful keys, and a
track URL resolving to track id `toString (i + 1)`. -/
def c5Item (i : ℕ) : JsonVal :=
  .obj [("id", .num ((i : ℤ) + 1)), ("name", .str "Track"),
        ("slug", .str "trk"), ("bpm", .num 120),
        ("url", .str ("/track/trk/" ++ toString ((i : ℤ) + 1)))]

def c5Items : List JsonVal := (List.range 60).map c5Item

def c5PageProps : JsonVal := .obj [("results", .arr c5Items)]

def c5NextData : JsonVal := .obj [("props", .obj [("pageProps", c5PageProps)])]

def c5Roots : List JsonVal := [c5PageProps, c5NextData]

theorem c5_witness :
    parseFromNextData (some c5NextData) = .ok (emittedFrom c5Items 0)
    ∧ (emittedFrom c5Items 0).length = 60 := by
  have hscan : scannedLists c5Roots ⟨[], 0, 0⟩ = [c5Items] := by
    rw [scannedLists_eq_N]
    rfl
  have h := c5_structured_emission c5NextData c5Roots c5Items
    (by decide)
    rfl
    (by rw [hscan]; exact List.mem_cons_self _ _)
    (by rw [hscan]; intro l hl _; simpa using hl)
    (by decide)
    (by decide)
    (by decide)
    (by decide)
  exact ⟨h.1, h.2.1⟩

/-- A stored `durability_metrics` row: chart key plus computed payload. -/
structure DbMetricRow where
  chart_id : String
  row : MetricRow

/-- The connection: last committed `durability_metrics` table and the
in-transaction working copy (reads of snapshot tables are a parameter,
`run_compute` never writes them). -/
structure Conn where
  committed : List DbMetricRow
  pending : List DbMetricRow

def beginTx (c : Conn) : Conn := { c with pending := c.committed }

/-- `DELETE FROM durability_metrics WHERE chart_id = ? AND as_of_week = ?`. -/
def deletePair (c : Conn) (chart wk : String) : Conn :=
  { c with
    pending := c.pending.filter
      (fun r => !(decide (r.chart_id = chart) && decide (r.row.as_of_week = wk))) }

def insertRows (c : Conn) (rows : List DbMetricRow) : Conn :=
  { c with pending := c.pending ++ rows }

def commitTx (c : Conn) : Conn := { c with committed := c.pending }

def rollbackTx (c : Conn) : Conn := { c with pending := c.committed }

/-- `tracks.setdefault(track_id, []).append(tw)`. -/
def appendAt : List (String × List TrackWeek) → String → TrackWeek →
    List (String × List TrackWeek)
  | [], k, tw => [(k, [tw])]
  | (k0, g) :: rest, k, tw =>
    if k0 = k then (k0, g ++ [tw]) :: rest
    else (k0, g) :: appendAt rest k tw

/-- One raw `(week, track_id, rank)` entry folded into the `tracks` dict;
entries whose week is outside `week_index` are skipped. -/
def addEntryC8 (weeks : List String)
    (acc : List (String × List TrackWeek)) (e : String × String × ℤ) :
    List (String × List TrackWeek) :=
  match weeks.indexOf? e.1 with
  | Option.none => acc
  | some i => appendAt acc e.2.1 ⟨(i : ℤ), e.1, e.2.2⟩

/-- The `rows_to_insert` built for one chart from its fetched weeks and raw
entries (weeks distinct ascending, as in the `SELECT DISTINCT ... ORDER BY`). -/
noncomputable def chartRowsC8 (chart_id : String) (weeks : List String)
    (raw : List (String × String × ℤ)) : List DbMetricRow :=
  let chart_as_of_week := weeks.getLastD ""
  let as_of_idx : ℤ := match weeks.indexOf? chart_as_of_week with
    | some i => (i : ℤ)
    | Option.none => 0
  let tracks := raw.foldl (addEntryC8 weeks) []
  tracks.map (fun kv =>
    { chart_id := chart_id,
      row := buildMetricRow kv.1 kv.2 chart_as_of_week as_of_idx weeks.length })

/-- One iteration of the `run_compute` chart loop. `fetch` supplies the
snapshot-table reads for the chart; `fails chart = some k` means the body
raises after `k` of the transaction steps (BEGIN, DELETE, executemany)
have executed, upon which the handler rolls back and continues. -/
noncomputable def processChart
    (fetch : String → List String × List (String × String × ℤ))
    (fails : String → Option ℕ) (conn : Conn) (chart : String) : Conn :=
  let weeks := (fetch chart).1
  let raw := (fetch chart).2
  let wk := weeks.getLastD ""
  match fails chart with
  | some 0 => rollbackTx conn
  | some 1 => rollbackTx (beginTx conn)
  | some 2 => rollbackTx (deletePair (beginTx conn) chart wk)
  | some _ => rollbackTx (insertRows (deletePair (beginTx conn) chart wk)
      (chartRowsC8 chart weeks raw))
  | Option.none =>
    if weeks.isEmpty then conn
    else if (raw.foldl (addEntryC8 weeks) []).isEmpty then conn
    else commitTx (insertRows (deletePair (beginTx conn) chart wk)
      (chartRowsC8 chart weeks raw))

/-- The `run_compute` chart loop over the distinct chart ids. -/
noncomputable def runCompute
    (fetch : String → List String × List (String × String × ℤ))
    (fails : String → Option ℕ) (charts : List String) (conn : Conn) : Conn :=
  charts.foldl (processChart fetch fails) conn

/-- The row inserted for one `(track_id, entries)` group of a chart. -/
noncomputable def chartRowOfC8 (chart : String) (weeks : List String)
    (kv : String × List TrackWeek) : DbMetricRow :=
  { chart_id := chart
    row := buildMetricRow kv.1 kv.2 (weeks.getLastD "")
      (match weeks.indexOf? (weeks.getLastD "") with
        | some i => (i : ℤ)
        | Option.none => 0) weeks.length }

theorem chartRowsC8_key (chart : String) (weeks : List String)
    (raw : List (String × String × ℤ)) :
    ∀ row ∈ chartRowsC8 chart weeks raw,
      row.chart_id = chart ∧ row.row.as_of_week = weeks.getLastD "" := by
  intro row hrow
  have hrow2 : row ∈ (raw.foldl (addEntryC8 weeks) []).map
      (chartRowOfC8 chart weeks) := hrow
  obtain ⟨kv, hkv, hr⟩ := List.mem_map.mp hrow2
  rw [← hr]
  exact ⟨rfl, rfl⟩

/-- C8: recomputing a chart's metrics for its as-of week commits, in one
transaction, exactly the old table with that (chart, as-of-week) pair's
rows deleted and the recomputed rows appended (every inserted row keyed by
that pair); a chart whose body raises after any number of transaction
steps leaves the committed table unchanged (its transaction alone is
rolled back), and the loop continues with the remaining charts from that
connection state. -/
theorem c8_recompute_atomic_and_isolated
    (fetch : String → List String × List (String × String × ℤ))
    (fails : String → Option ℕ) (conn : Conn) (chart : String)
    (rest : List String) (weeks : List String)
    (raw : List (String × String × ℤ)) :
    ((fails chart = Option.none → fetch chart = (weeks, raw) →
      weeks ≠ [] → raw.foldl (addEntryC8 weeks) [] ≠ [] →
      (processChart fetch fails conn chart).committed
        = conn.committed.filter
            (fun r => !(decide (r.chart_id = chart)
              && decide (r.row.as_of_week = weeks.getLastD "")))
          ++ chartRowsC8 chart weeks raw
      ∧ ∀ row ∈ chartRowsC8 chart weeks raw,
          row.chart_id = chart ∧ row.row.as_of_week = weeks.getLastD "")
    ∧ (∀ k, fails chart = some k →
        processChart fetch fails conn chart = ⟨conn.committed, conn.committed⟩)
    ∧ runCompute fetch fails (chart :: rest) conn
        = runCompute fetch fails rest (processChart fetch fails conn chart)) := by
  refine ⟨?_, ?_, rfl⟩
  · intro hnone hfr hw ht
    have hw' : weeks.isEmpty = false := by
      cases weeks with
      | nil => exact absurd rfl hw
      | cons a as => rfl
    have ht' : (raw.foldl (addEntryC8 weeks) []).isEmpty = false := by
      rcases hfold : raw.foldl (addEntryC8 weeks) [] with _ | ⟨a, as⟩
      · exact absurd hfold ht
      · rfl
    have hpc : processChart fetch fails conn chart
        = commitTx (insertRows (deletePair (beginTx conn) chart (weeks.getLastD ""))
            (chartRowsC8 chart weeks raw)) := by
      unfold processChart
      rw [hnone, hfr]
      show (if weeks.isEmpty = true then conn
            else if (raw.foldl (addEntryC8 weeks) []).isEmpty = true then conn
            else commitTx (insertRows (deletePair (beginTx conn) chart (weeks.getLastD ""))
              (chartRowsC8 chart weeks raw))) = _
      rw [hw', ht']
      rfl
    exact ⟨by rw [hpc]; rfl, chartRowsC8_key chart weeks raw⟩
  · intro k hk
    unfold processChart
    rw [hk]
    rcases k with _ | (_ | (_ | k)) <;> rfl

def c8Fetch : String → List String × List (String × String × ℤ) :=
  fun _ => (["2025-01-06"], [("2025-01-06", "t1", 3)])

def c8FailsNone : String → Option ℕ := fun _ => Option.none

def c8FailsMid : String → Option ℕ := fun _ => some 2

noncomputable def c8Conn : Conn :=
  ⟨[⟨"other", buildMetricRow "x" [⟨0, "2024-12-30", 5⟩] "2024-12-30" 0 1⟩], []⟩

theorem c8_witness :
    (processChart c8Fetch c8FailsNone c8Conn "chart-a").committed
      = c8Conn.committed.filter
          (fun r => !(decide (r.chart_id = "chart-a")
            && decide (r.row.as_of_week = "2025-01-06")))
        ++ chartRowsC8 "chart-a" ["2025-01-06"] [("2025-01-06", "t1", 3)]
    ∧ processChart c8Fetch c8FailsMid c8Conn "chart-a"
      = ⟨c8Conn.committed, c8Conn.committed⟩ := by
  constructor
  · have h := (c8_recompute_atomic_and_isolated c8Fetch c8FailsNone c8Conn "chart-a" []
      ["2025-01-06"] [("2025-01-06", "t1", 3)]).1 rfl rfl (by decide) (by decide)
    exact h.1
  · exact (c8_recompute_atomic_and_isolated c8Fetch c8FailsMid c8Conn "chart-a" []
      ["2025-01-06"] [("2025-01-06", "t1", 3)]).2.1 2 rfl

/-- The parameters of `db.upsert_snapshot` besides `conn` (the names a
keyword call can bind). -/
def upsertSnapshotParams : List String :=
  ["chart_id", "snapshot_date", "source_url", "fetched_at"]

/-- The keyword arguments `_ingest_single_chart` passes to
`upsert_snapshot` when extraction yields an empty entry list. -/
def emptyCaseSnapshotKwargs : List String :=
  ["chart_id", "snapshot_date", "source_url", "fetched_at",
   "status", "error", "html_bytes"]

/-- Python keyword binding: a call raises `TypeError` unless every keyword
names a parameter. -/
def callKwargsOk (params kwargs : List String) : Bool :=
  kwargs.all (fun k => params.contains k)

/-- The columns `init_db` declares for `chart_snapshots`. -/
def chartSnapshotsColumns : List String :=
  ["id", "chart_id", "snapshot_date", "fetched_at", "source_url"]

/-- A stored `chart_snapshots` row. -/
structure SnapRow where
  id : String
  chart_id : String
  snapshot_date : String
  fetched_at : String
  source_url : String
deriving DecidableEq

/-- `_build_snapshot_id`. -/
def buildSnapshotId (chart_id snapshot_date : String) : String :=
  chart_id ++ ":" ++ snapshot_date

/-- The SQL effect of `upsert_snapshot`: insert, or update `fetched_at`
and `source_url` on the `(chart_id, snapshot_date)` conflict. -/
def upsertSnapRow (tbl : List SnapRow)
    (chart_id snapshot_date source_url fetched_at : String) : List SnapRow :=
  if tbl.any (fun r => decide (r.chart_id = chart_id)
      && decide (r.snapshot_date = snapshot_date)) then
    tbl.map (fun r =>
      if r.chart_id = chart_id ∧ r.snapshot_date = snapshot_date then
        { r with fetched_at := fetched_at, source_url := source_url }
      else r)
  else
    tbl ++ [⟨buildSnapshotId chart_id snapshot_date, chart_id, snapshot_date,
      fetched_at, source_url⟩]

/-- The empty-entries recording branch of `_ingest_single_chart`:
`BEGIN`; `upsert_chart`; `upsert_snapshot(chart_id=, snapshot_date=,
source_url=, fetched_at=, status="failed", error=..., html_bytes=...)`;
`commit` — where the `upsert_snapshot` call raises `TypeError` when it
passes a keyword that is not a parameter, and the `except` handler then
rolls the transaction back, leaving the committed table unchanged. -/
def ingestEmptyBranch (snapshots : List SnapRow)
    (chart_id snap_str url fetched_at : String) : List SnapRow :=
  if callKwargsOk upsertSnapshotParams emptyCaseSnapshotKwargs then
    upsertSnapRow snapshots chart_id snap_str url fetched_at
  else snapshots

/-- C9: the sanctioned-empty recording path persists nothing. The
`upsert_snapshot` call passes keywords (`status`, `error`, `html_bytes`)
that are not parameters of `upsert_snapshot`, so it raises `TypeError`
and the handler rolls back — the snapshots table is unchanged from every
starting state — and the stored `chart_snapshots` schema carries no
`status` or `error` column, contrary to the claimed persisted "failed"
snapshot row. -/
theorem c9_failed_snapshot_not_persisted :
    callKwargsOk upsertSnapshotParams emptyCaseSnapshotKwargs = false
    ∧ (∀ (snapshots : List SnapRow) (chart_id snap_str url fetched_at : String),
        ingestEmptyBranch snapshots chart_id snap_str url fetched_at = snapshots)
    ∧ "status" ∉ chartSnapshotsColumns
    ∧ "error" ∉ chartSnapshotsColumns := by
  refine ⟨rfl, ?_, by decide, by decide⟩
  intro snapshots chart_id snap_str url fetched_at
  unfold ingestEmptyBranch
  rw [show callKwargsOk upsertSnapshotParams emptyCaseSnapshotKwargs = false from rfl]
  rfl

/-- Rows of the snapshots table carrying a given (chart, snapshot-date) key. -/
def snapKeyCount (tbl : List SnapRow) (c s : String) : ℕ :=
  tbl.countP (fun r => decide (r.chart_id = c) && decide (r.snapshot_date = s))

theorem countP_upsert_map (c s u f : String) :
    ∀ tbl : List SnapRow,
      (tbl.map (fun r =>
        if r.chart_id = c ∧ r.snapshot_date = s then
          { r with fetched_at := f, source_url := u }
        else r)).countP
          (fun r => decide (r.chart_id = c) && decide (r.snapshot_date = s))
      = tbl.countP (fun r => decide (r.chart_id = c) && decide (r.snapshot_date = s)) := by
  intro tbl
  induction tbl with
  | nil => rfl
  | cons r rest ih =>
    rw [List.map_cons, List.countP_cons, List.countP_cons, ih]
    congr 1
    by_cases hr : r.chart_id = c ∧ r.snapshot_date = s
    · rw [if_pos hr]
    · rw [if_neg hr]

theorem upsertSnapRow_key_count (tbl : List SnapRow) (c s u f : String) :
    snapKeyCount (upsertSnapRow tbl c s u f) c s
      = max (snapKeyCount tbl c s) 1 := by
  unfold upsertSnapRow snapKeyCount
  by_cases h : tbl.any (fun r => decide (r.chart_id = c)
      && decide (r.snapshot_date = s)) = true
  · rw [if_pos h]
    rw [countP_upsert_map]
    have hpos : 0 < tbl.countP (fun r => decide (r.chart_id = c)
        && decide (r.snapshot_date = s)) := by
      rw [List.countP_pos_iff]
      obtain ⟨x, hx, hpx⟩ := List.any_eq_true.mp h
      exact ⟨x, hx, hpx⟩
    exact (Nat.max_eq_left hpos).symm
  · rw [if_neg h]
    rw [List.countP_append]
    have h0 : tbl.countP (fun r => decide (r.chart_id = c)
        && decide (r.snapshot_date = s)) = 0 := by
      rw [List.countP_eq_zero]
      intro a ha hpa
      exact h (List.any_eq_true.mpr ⟨a, ha, hpa⟩)
    rw [h0]
    simp [List.countP_cons]

/-- The snapshot date every chart's ingestion addresses: `run_ingestion`
replaces the provided date by its week bucket before the chart loop. -/
def runIngestionSnapDate (d : ℤ) : ℤ := weekBucket d

/-- C10: the date `run_ingestion` persists is the Monday of the provided
date's week; `week_bucket` is idempotent and constant across the seven
days of a week, so re-ingesting any day of the same week addresses the
same snapshot id; and the snapshot upsert keyed on (chart, snapshot-date)
keeps at most one row per key (exactly `max old 1` rows carry the key). -/
theorem c10_week_bucket_normalization :
    (∀ d : ℤ, weekday (runIngestionSnapDate d) = 0)
    ∧ (∀ d : ℤ, weekBucket (weekBucket d) = weekBucket d)
    ∧ (∀ d j : ℤ, 0 ≤ j → j < 7 → weekBucket (weekBucket d + j) = weekBucket d)
    ∧ (∀ (c : String) (d j : ℤ), 0 ≤ j → j < 7 →
        buildSnapshotId c (toString (weekBucket (weekBucket d + j)))
          = buildSnapshotId c (toString (weekBucket d)))
    ∧ (∀ (tbl : List SnapRow) (c s u f : String),
        snapKeyCount (upsertSnapRow tbl c s u f) c s
          = max (snapKeyCount tbl c s) 1) := by
  have hsame : ∀ d j : ℤ, 0 ≤ j → j < 7 →
      weekBucket (weekBucket d + j) = weekBucket d := by
    intro d j h0 h7
    unfold weekBucket weekday
    omega
  refine ⟨?_, ?_, hsame, ?_, upsertSnapRow_key_count⟩
  · intro d
    unfold runIngestionSnapDate weekBucket weekday
    omega
  · intro d
    unfold weekBucket weekday
    omega
  · intro c d j h0 h7
    rw [hsame d j h0 h7]

theorem c10_witness :
    weekBucket (weekBucket 739257 + 3) = weekBucket 739257
    ∧ snapKeyCount (upsertSnapRow [] "hype-top-100" "2025-01-06" "u" "f")
        "hype-top-100" "2025-01-06"
      = max (snapKeyCount [] "hype-top-100" "2025-01-06") 1 := by
  have h := c10_week_bucket_normalization
  exact ⟨h.2.2.1 739257 3 (by decide) (by decide),
    h.2.2.2.2 [] "hype-top-100" "2025-01-06" "u" "f"⟩
